import Mathlib

/-!
Shallow embedding of the VFVS subjob runner (`tools/templates/vfvs_run.py`).

The embedding models the parts of the pipeline the verified claims are
about: the Aggregator (`summary_process`, `check_for_completion_of_collection_key`),
the Validator/Dispatcher (`collection_process`, `submit_ligand_for_docking`),
the Unpacker (`unpack_item`), the Executor (`docking_process_batch`) and the
report generation (`generate_summary_file`, sentinel handling).

Python dictionaries are modelled as association lists with last-writer-wins
update; Python exceptions (KeyError, TypeError, re-raised RuntimeError) are
modelled with `Option`, `none` meaning the corresponding code path raises.
Python floats that carry docking scores are modelled as rationals.
Filesystem effects that the claims observe (creation/deletion of the
per-invocation run directories, the archive-and-cleanup action of a completed
collection) are modelled as explicit event traces.
-/

namespace VFVS

/-- Python dict lookup, `d[k]` / `k in d`. -/
def alookup {α : Type} : List (String × α) → String → Option α
  | [], _ => none
  | (k', v) :: rest, k => if k' = k then some v else alookup rest k

/-- Python dict write, `d[k] = v` (replaces an existing binding, else appends). -/
def aset {α : Type} : List (String × α) → String → α → List (String × α)
  | [], k, v => [(k, v)]
  | (k', v') :: rest, k, v =>
      if k' = k then (k, v) :: rest else (k', v') :: aset rest k v

/-- Python dict removal, `d.pop(k, None)`. -/
def aerase {α : Type} : List (String × α) → String → List (String × α)
  | [], _ => []
  | (k', v') :: rest, k =>
      if k' = k then aerase rest k else (k', v') :: aerase rest k

theorem alookup_aset_self {α : Type} (m : List (String × α)) (k : String) (v : α) :
    alookup (aset m k v) k = some v := by
  induction m with
  | nil => simp [aset, alookup]
  | cons hd tl ih =>
      obtain ⟨k', v'⟩ := hd
      by_cases h : k' = k <;> simp [aset, alookup, h, ih]

theorem alookup_aset_ne {α : Type} (m : List (String × α)) (k k' : String) (v : α)
    (h : k ≠ k') : alookup (aset m k v) k' = alookup m k' := by
  induction m with
  | nil => simp [aset, alookup, h]
  | cons hd tl ih =>
      obtain ⟨k'', v''⟩ := hd
      by_cases h2 : k'' = k
      · subst h2
        simp [aset, alookup, h]
      · simp [aset, alookup, h2, ih]

theorem alookup_aerase_self {α : Type} (m : List (String × α)) (k : String) :
    alookup (aerase m k) k = none := by
  induction m with
  | nil => simp [aerase, alookup]
  | cons hd tl ih =>
      obtain ⟨k', v'⟩ := hd
      by_cases h : k' = k <;> simp [aerase, alookup, h, ih]

theorem alookup_aerase_ne {α : Type} (m : List (String × α)) (k k' : String)
    (h : k ≠ k') : alookup (aerase m k) k' = alookup m k' := by
  induction m with
  | nil => simp [aerase, alookup]
  | cons hd tl ih =>
      obtain ⟨k'', v''⟩ := hd
      by_cases h2 : k'' = k
      · subst h2
        simp [aerase, alookup, h, ih]
      · simp [aerase, alookup, h2, ih]

/-- `item['log']` of a docking task / `summary_item['log']` of a skip event. -/
structure TaskLogEntry where
  base_collection_key : String
  collection_key : String
  ligand_key : String
  reason : String
deriving DecidableEq

/-- One element of a `docking_complete` batch (`single_item` in `summary_process`). -/
structure DockingOutcome where
  ligand_key : String
  collection_key : String
  base_collection_key : String
  scenario_key : String
  status : String
  score : ℚ
  attrs : List (String × String)
  log : TaskLogEntry
deriving DecidableEq

/-- The events arriving on the summary queue (`summary_item['type']`). -/
inductive SummaryItem where
  | delete (base_collection_key : String) (expected_completions : Int) (temp_dir : String)
  | download_failed (base_collection_key : String) (reason : String) (dockings : Nat)
  | skip (log : TaskLogEntry)
  | docking_complete (items : List DockingOutcome) (execution_type : String)
deriving DecidableEq

/-- One entry of the `collection_completions` dict. -/
structure CompletionEntry where
  expected_completions : Int
  current_completions : Int
  temp_dir : String
deriving DecidableEq

/-- One row of `summary_data[scenario_key]` before reduction. -/
structure SummaryRow where
  ligand : String
  collection_key : String
  scenario_key : String
  scores : List ℚ
  attrs : List (String × String)
deriving DecidableEq

/-- The Aggregator state owned by `summary_process`.  `completed_collections`
is the trace of archive-and-cleanup actions: one element is appended each time
`check_for_completion_of_collection_key` moves a collection's scenario output
into the final tree, deletes its scratch directory and pops its entry. -/
structure AggState where
  total_dockings : Nat
  dockings_success : Nat
  dockings_failed : Nat
  skipped_ligands : Nat
  skipped_ligand_list : List TaskLogEntry
  failed_list : List TaskLogEntry
  failed_downloads : Nat
  failed_downloads_log : List (String × String × Nat)
  failed_downloads_dockings : Nat
  dockings_processed : Nat
  collection_completions : List (String × CompletionEntry)
  summary_data : List (String × List (String × SummaryRow))
  completed_collections : List String
deriving DecidableEq

/-- `summary_process` initial state (`overview_data`, `summary_data`,
`collection_completions`); `summary_data` gets one empty table per configured
scenario key. -/
def initialAggState (scenarioKeys : List String) : AggState where
  total_dockings := 0
  dockings_success := 0
  dockings_failed := 0
  skipped_ligands := 0
  skipped_ligand_list := []
  failed_list := []
  failed_downloads := 0
  failed_downloads_log := []
  failed_downloads_dockings := 0
  dockings_processed := 0
  collection_completions := []
  summary_data := scenarioKeys.map (fun s => (s, []))
  completed_collections := []

/-- `check_for_completion_of_collection_key`: if the entry's current count
equals its expected count, move the scenario outputs, delete the scratch
directory (recorded on `completed_collections`) and pop the entry.  Both call
sites invoke it with `collection_key` present in the dict. -/
def check_for_completion_of_collection_key (st : AggState) (collection_key : String) :
    AggState :=
  match alookup st.collection_completions collection_key with
  | none => st
  | some entry =>
      if entry.current_completions = entry.expected_completions then
        { st with
          collection_completions := aerase st.collection_completions collection_key
          completed_collections := st.completed_collections ++ [collection_key] }
      else st

/-- The `"delete"` branch of `summary_process`. -/
def handleDelete (st : AggState) (key : String) (expected : Int) (tempDir : String) :
    AggState :=
  let cc :=
    match alookup st.collection_completions key with
    | some entry =>
        aset st.collection_completions key
          { entry with expected_completions := expected, temp_dir := tempDir }
    | none =>
        aset st.collection_completions key
          ⟨expected, 0, tempDir⟩
  check_for_completion_of_collection_key { st with collection_completions := cc } key

/-- `overview_data['dockings_status'][status] += 1`; any status other than
`"success"` or `"failed"` raises `KeyError`. -/
def incrementStatus (st : AggState) (status : String) : Option AggState :=
  if status = "success" then
    some { st with dockings_success := st.dockings_success + 1 }
  else if status = "failed" then
    some { st with dockings_failed := st.dockings_failed + 1 }
  else
    none

/-- The per-outcome part of the `"docking_complete"` branch that updates
`summary_data` (on success) or `failed_list` (otherwise);
`summary_data[scenario_key]` raises `KeyError` for an unconfigured scenario. -/
def recordOutcome (st : AggState) (it : DockingOutcome) : Option AggState :=
  if it.status = "success" then
    match alookup st.summary_data it.scenario_key with
    | none => none
    | some table =>
        let table' :=
          match alookup table it.ligand_key with
          | none =>
              aset table it.ligand_key
                ⟨it.ligand_key, it.collection_key, it.scenario_key, [it.score], it.attrs⟩
          | some row =>
              aset table it.ligand_key { row with scores := row.scores ++ [it.score] }
        some { st with summary_data := aset st.summary_data it.scenario_key table' }
  else
    some { st with failed_list := st.failed_list ++ [it.log] }

/-- The completion-map part of the `"docking_complete"` branch: increment and
check if the key is present, otherwise create the sentinel entry
`{'expected_completions': -1, 'current_completions': 1, 'temp_dir': ""}`. -/
def updateCompletions (st : AggState) (key : String) : AggState :=
  match alookup st.collection_completions key with
  | some entry =>
      let st' :=
        { st with
          collection_completions :=
            aset st.collection_completions key
              { entry with current_completions := entry.current_completions + 1 } }
      check_for_completion_of_collection_key st' key
  | none =>
      { st with
        collection_completions := aset st.collection_completions key ⟨-1, 1, ""⟩ }

/-- Processing of one `single_item` of a `docking_complete` batch. -/
def handleDockingOutcome (st : AggState) (it : DockingOutcome) : Option AggState :=
  match incrementStatus { st with total_dockings := st.total_dockings + 1 } it.status with
  | none => none
  | some st2 =>
      match recordOutcome st2 it with
      | none => none
      | some st3 => some (updateCompletions st3 it.base_collection_key)

/-- Left-to-right processing of the `item['items']` loop. -/
def handleDockingOutcomes : AggState → List DockingOutcome → Option AggState
  | st, [] => some st
  | st, it :: rest =>
      match handleDockingOutcome st it with
      | none => none
      | some st' => handleDockingOutcomes st' rest

/-- One iteration of the `summary_process` event loop (`move_batch_logs` only
touches the filesystem and is not part of the aggregation state). -/
def processSummaryItem (st : AggState) : SummaryItem → Option AggState
  | .delete key expected tempDir => some (handleDelete st key expected tempDir)
  | .download_failed key reason dockings =>
      some { st with
        failed_downloads_log := st.failed_downloads_log ++ [(key, reason, dockings)]
        failed_downloads := st.failed_downloads + 1
        failed_downloads_dockings := st.failed_downloads_dockings + dockings }
  | .skip log =>
      some { st with
        skipped_ligands := st.skipped_ligands + 1
        skipped_ligand_list := st.skipped_ligand_list ++ [log] }
  | .docking_complete items _execution_type =>
      handleDockingOutcomes
        { st with dockings_processed := st.dockings_processed + 1 } items

/-- The `summary_process` event loop from a given state. -/
def runSummaryEvents : AggState → List SummaryItem → Option AggState
  | st, [] => some st
  | st, ev :: rest =>
      match processSummaryItem st ev with
      | none => none
      | some st' => runSummaryEvents st' rest

/-- `summary_process` up to (not including) the terminating sentinel. -/
def summary_process (scenarioKeys : List String) (events : List SummaryItem) :
    Option AggState :=
  runSummaryEvents (initialAggState scenarioKeys) events

/-- Joint effect of the `current_completions` increment and the subsequent
completion check on one completion-map entry: the new entry (if any) and
whether the archive-and-cleanup action fired. -/
def outcomeStep (e : Option CompletionEntry) : Option CompletionEntry × Bool :=
  match e with
  | none => (some ⟨-1, 1, ""⟩, false)
  | some entry =>
      if entry.current_completions + 1 = entry.expected_completions then
        (none, true)
      else
        (some { entry with current_completions := entry.current_completions + 1 }, false)

/-- Joint effect of the `"delete"` branch on the completion-map entry of its
key: the new entry (if any) and whether the archive-and-cleanup action fired. -/
def deleteStep (e : Option CompletionEntry) (n : Int) (d : String) :
    Option CompletionEntry × Bool :=
  match e with
  | some entry =>
      if entry.current_completions = n then (none, true)
      else (some ⟨n, entry.current_completions, d⟩, false)
  | none => if (0 : Int) = n then (none, true) else (some ⟨n, 0, d⟩, false)

/-- A docking outcome the Aggregator can process without raising: the status
names one of the two `dockings_status` counters, and a successful outcome
refers to a configured scenario. -/
def isValidOutcome (scenarioKeys : List String) (it : DockingOutcome) : Bool :=
  (it.status == "success" || it.status == "failed")
    && (!(it.status == "success") || scenarioKeys.contains it.scenario_key)

/-- A `docking_complete` event that delivers outcomes of one collection `k`
(`docking_process_batch` never emits an empty batch: it returns early on
`len(items) == 0`). -/
def isOutcomeBatchFor (scenarioKeys : List String) (k : String) : SummaryItem → Bool
  | .docking_complete items _ =>
      !items.isEmpty
        && items.all (fun it => it.base_collection_key == k && isValidOutcome scenarioKeys it)
  | _ => false

/-- Whether an event is the `delete` marker of a given base collection key. -/
def isDeleteForKey (k : String) : SummaryItem → Bool
  | .delete k' _ _ => k' == k
  | _ => false

/-- Number of per-task docking outcomes delivered by one event. -/
def eventSize : SummaryItem → Nat
  | .docking_complete items _ => items.length
  | _ => 0

/-- Total number of per-task docking outcomes delivered by a list of events. -/
def totalOutcomes (events : List SummaryItem) : Nat := (events.map eventSize).sum

/-- Completion-map entry of a collection that has received `c` docking
outcomes and no delete marker yet. -/
def preEntry (c : Nat) : Option CompletionEntry :=
  if c = 0 then none else some ⟨-1, (c : Int), ""⟩

/-- All configured scenario keys have a table in `summary_data`. -/
def ScenariosPresent (scenarioKeys : List String) (st : AggState) : Prop :=
  ∀ s ∈ scenarioKeys, (alookup st.summary_data s).isSome = true

/-- Replica scores of the successful outcomes for one (scenario, ligand) among
the items of one batch, in delivery order. -/
def successScoresOfItems (scen lig : String) : List DockingOutcome → List ℚ
  | [] => []
  | it :: rest =>
      if it.scenario_key = scen ∧ it.ligand_key = lig ∧ it.status = "success" then
        it.score :: successScoresOfItems scen lig rest
      else successScoresOfItems scen lig rest

/-- Replica scores of the successful outcomes for one (scenario, ligand) over
a whole event stream, in delivery order. -/
def successScores (scen lig : String) : List SummaryItem → List ℚ
  | [] => []
  | .docking_complete items _ :: rest =>
      successScoresOfItems scen lig items ++ successScores scen lig rest
  | _ :: rest => successScores scen lig rest

/-- `min(scores)` as `generate_summary_file` computes it; Python `min` raises
on an empty list. -/
def pymin : List ℚ → Option ℚ
  | [] => none
  | x :: xs => some (xs.foldl min x)

/-- `statistics.mean(scores)`; raises on an empty list. -/
def pymean (l : List ℚ) : Option ℚ :=
  if l.length = 0 then none else some (l.sum / (l.length : ℚ))

/-- The summary row of one (scenario, ligand), when it exists
(`summary_data[scenario_key][ligand_key]`). -/
def rowLookup (st : AggState) (scen lig : String) : Option SummaryRow :=
  (alookup st.summary_data scen).bind (fun table => alookup table lig)

/-- How a burst of success scores extends an optional accumulated score list:
no row and no new scores leaves no row; new scores create or extend the row. -/
def combineScores : Option (List ℚ) → List ℚ → Option (List ℚ)
  | none, [] => none
  | none, g => some g
  | some l, g => some (l ++ g)

/-! Validator/Dispatcher (`collection_process`, `submit_ligand_for_docking`). -/

/-- One entry of `ctx['main_config']['docking_scenarios']`. -/
structure ScenarioConf where
  key : String
  replicas : Nat
  batchsizes : Nat
  program : String
deriving DecidableEq

/-- One item placed on the docking queue (the fields the claims observe). -/
structure DispatchTask where
  ligand_key : String
  scenario_key : String
  replica_index : Nat
  collection_key : String
  base_collection_key : String
deriving DecidableEq

/-- One value of the `ligands` dict built by `unpack_item`. -/
structure LigandRecord where
  base_collection_key : String
  collection_key : String
deriving DecidableEq

/-- One item of the collection queue; `ligands` is `None` exactly when
`unpack_item` failed to open the archive. -/
structure CollectionItem where
  collection_key : String
  temp_dir : String
  ligands : Option (List (String × LigandRecord))
deriving DecidableEq

/-- The `completions_per_ligand` double loop of `collection_process`: one
completion per configured scenario per replica. -/
def completions_per_ligand (docking_scenarios : List ScenarioConf) : Nat :=
  docking_scenarios.foldl (fun acc s => acc + s.replicas) 0

/-- `submit_ligand_for_docking`: one docking-queue item per scenario per
replica index. -/
def submit_ligand_for_docking (docking_scenarios : List ScenarioConf)
    (ligand_name : String) (collection_key base_collection_key : String) :
    List DispatchTask :=
  (docking_scenarios.map (fun s =>
    (List.range s.replicas).map (fun r =>
      (⟨ligand_name, s.key, r, collection_key, base_collection_key⟩ : DispatchTask)))).flatten

/-- The per-ligand loop of `collection_process`.  The verdict of the
line-scan of the ligand's structure file (banned-element regex, duplicate
coordinates, dynamic tranche filter) depends only on the file's contents,
which are external input here; `skip_verdict name = some reason` means the
scan skipped the ligand with that reason, `none` means it passed.  Returns
the dispatched tasks, the emitted `skip` events, and `expected_ligands`. -/
def collection_process_ligands (docking_scenarios : List ScenarioConf)
    (skip_verdict : String → Option String) :
    List (String × LigandRecord) → List DispatchTask × List SummaryItem × Nat
  | [] => ([], [], 0)
  | (name, lig) :: rest =>
      let r := collection_process_ligands docking_scenarios skip_verdict rest
      match skip_verdict name with
      | none =>
          (submit_ligand_for_docking docking_scenarios name
              lig.collection_key lig.base_collection_key ++ r.1,
           r.2.1,
           completions_per_ligand docking_scenarios + r.2.2)
      | some reason =>
          (r.1,
           SummaryItem.skip ⟨lig.base_collection_key, lig.collection_key, name, reason⟩
              :: r.2.1,
           r.2.2)

/-- `collection_process` for one collection item: dispatch or skip every
ligand, then emit the one `delete` marker.  When `item['ligands']` is `None`
(failed unpack), the loop `for ligand_key in item['ligands']` raises
`TypeError`, modelled as `none`. -/
def collection_process (docking_scenarios : List ScenarioConf)
    (skip_verdict : String → Option String) (item : CollectionItem) :
    Option (List DispatchTask × List SummaryItem) :=
  match item.ligands with
  | none => none
  | some ligs =>
      let r := collection_process_ligands docking_scenarios skip_verdict ligs
      some (r.1,
        r.2.1 ++ [SummaryItem.delete item.collection_key (r.2.2 : Int) item.temp_dir])

/-- Whether a summary-queue event is a `delete` marker. -/
def isDeleteMarker : SummaryItem → Bool
  | .delete _ _ _ => true
  | _ => false

/-! Unpacker (`unpack_item`). -/

/-- One tar member; `ligand_file` is the part of `member.name` after the
first `/` (the archive layout is `<collection_number>/<ligand file>`). -/
structure TarMember where
  is_dir : Bool
  ligand_file : String
deriving DecidableEq

/-- Result of `tarfile.open` plus member enumeration, which is external
input/output here. -/
inductive TarOpenResult where
  | opened (members : List TarMember)
  | open_failed (err : String)
deriving DecidableEq

/-- One parsed CSV row of the `.listing` sidecar file. -/
structure ListingRow where
  collection_key : String
  ligand_name : String
  rank_index : Int
deriving DecidableEq

/-- `item['collection']['mode']` together with the per-mode inputs: the named
ligand list, or the parsed `.listing` rows and prescreen cutoff. -/
inductive SelectionMode where
  | full
  | named (names : List String)
  | prescreen (listing : List ListingRow) (prescreen_ligands_per_tranche : Int)
deriving DecidableEq

/-- `ligand.split(".")[0]`: the characters before the first `.` (the whole
name when there is no dot). -/
def ligandNameOf (ligand_file : String) : String :=
  String.mk (ligand_file.toList.takeWhile (fun c => c != '.'))

/-- The member loop of `unpack_item`: build the `ligands` dict, skipping
directories and the `.listing` sidecar; both identities start as the
archive's collection key. -/
def buildLigands (collection_key : String) (members : List TarMember) :
    List (String × LigandRecord) :=
  members.foldl (fun acc m =>
    if m.is_dir then acc
    else if m.ligand_file = ".listing" then acc
    else aset acc (ligandNameOf m.ligand_file) ⟨collection_key, collection_key⟩) []

/-- The `"named"` branch of `unpack_item`; `ligands[ligand_name]` raises
`KeyError` when a named ligand is not in the archive. -/
def named_select (ligands : List (String × LigandRecord)) :
    List (String × LigandRecord) → List String → Option (List (String × LigandRecord))
  | acc, [] => some acc
  | acc, name :: rest =>
      match alookup ligands name with
      | none => none
      | some lr => named_select ligands (aset acc name lr) rest

/-- The `"prescreen_mode"` branch of `unpack_item`: keep a listing row only if
its rank index is strictly below the per-tranche cutoff, and overwrite the
kept ligand's reporting `collection_key` with the row's collection key;
`ligands[screen_ligand_name]` raises `KeyError` when the row names a ligand
that is not in the archive. -/
def prescreen_select (ligands : List (String × LigandRecord)) (cutoff : Int) :
    List (String × LigandRecord) → List ListingRow → Option (List (String × LigandRecord))
  | acc, [] => some acc
  | acc, row :: rest =>
      if row.rank_index ≥ cutoff then prescreen_select ligands cutoff acc rest
      else
        match alookup ligands row.ligand_name with
        | none => none
        | some lr =>
            prescreen_select ligands cutoff
              (aset acc row.ligand_name { lr with collection_key := row.collection_key })
              rest

/-- `unpack_item`.  The outer `Option` is `none` when the function raises
(`KeyError` in the named/prescreen branches); the inner `Option` is the
returned value — `None` (archive-open failure, logged) or the ligand dict. -/
def unpack_item (tar : TarOpenResult) (collection_key : String)
    (mode : SelectionMode) : Option (Option (List (String × LigandRecord))) :=
  match tar with
  | .open_failed _ => some none
  | .opened members =>
      let ligands := buildLigands collection_key members
      match mode with
      | .full => some (some ligands)
      | .named names => (named_select ligands [] names).map some
      | .prescreen listing cutoff => (prescreen_select ligands cutoff [] listing).map some

/-! Report generation (`generate_summary_file`, the sentinel branch of
`summary_process`, `generate_output_archives`). -/

/-- Column names of the summary table.  In the source these are the strings
`"ligand"`, …, `f"attr_{name}"`, `f"tranche_{index}"`, `f"score_{index}"`;
the constructors encode those strings injectively. -/
inductive Column where
  | ligand
  | collection_key
  | scenario_key
  | score_average
  | score_min
  | attr (name : String)
  | tranche (index : Nat)
  | score (index : Nat)
deriving DecidableEq

/-- The initial `csv_ordering` list of `generate_summary_file`. -/
def baseCsvOrdering : List Column :=
  [.ligand, .collection_key, .scenario_key, .score_average, .score_min]

/-- The attr loop of `generate_summary_file`: append `attr_<name>` for each
attribute not already in the ordering. -/
def appendAttrColumns (ordering : List Column) (attrs : List (String × String)) :
    List Column :=
  attrs.foldl
    (fun ord p => if Column.attr p.1 ∈ ord then ord else ord ++ [Column.attr p.1])
    ordering

/-- The running `max_scores` of `generate_summary_file`. -/
def maxScoresCount (rows : List SummaryRow) : Nat :=
  rows.foldl (fun m row => if row.scores.length > m then row.scores.length else m) 0

/-- The final `csv_ordering` used for the `csv.gz` header and rows: the base
columns, then the `attr_*` columns appended by the per-row loop, then
`score_0 .. score_{max_scores-1}`.  The per-row loop also writes
`tranche_<i>` fields into each row dict, but never appends them to
`csv_ordering`. -/
def csvOrdering (rows : List SummaryRow) : List Column :=
  (rows.foldl (fun ord row => appendAttrColumns ord row.attrs) baseCsvOrdering)
    ++ (List.range (maxScoresCount rows)).map Column.score

/-- Modelled from the spec: the column ordering §6 describes —
`ligand, collection_key, scenario, score_average, score_min, attr_*...,
tranche_0.., score_0..score_{R-1}` — for comparison against `csvOrdering`.
The tranche columns come from the letters of a row's collection key. -/
def specCsvOrdering (rows : List SummaryRow) (trancheCount : Nat) : List Column :=
  baseCsvOrdering
    ++ (rows.foldl (fun acc row =>
          row.attrs.foldl (fun acc p => if p.1 ∈ acc then acc else acc ++ [p.1]) acc) []).map
        Column.attr
    ++ (List.range trancheCount).map Column.tranche
    ++ (List.range (maxScoresCount rows)).map Column.score

/-- First-appearance order of attribute names over the rows. -/
def attrNamesOrder (rows : List SummaryRow) : List String :=
  rows.foldl (fun acc row =>
    row.attrs.foldl (fun acc p => if p.1 ∈ acc then acc else acc ++ [p.1]) acc) []

/-- The report artifacts the Aggregator queues for upload at shutdown. -/
inductive ReportArtifact where
  | overview_report
  | parquet_summary (scenario_key : String)
  | csv_summary (scenario_key : String)
  | output_archive (scenario_key : String)
deriving DecidableEq

/-- The scenario loop of `generate_summary_file`, at the level of which
artifacts get produced.  The `if(len(summary_data[scenario_key]) == 0): break`
statement exits the whole loop, so nothing is emitted for the remaining
scenarios either. -/
def generate_summary_file (formats : List String)
    (summary_data : List (String × List (String × SummaryRow))) :
    List String → List ReportArtifact
  | [] => []
  | k :: rest =>
      if ((alookup summary_data k).getD []).length = 0 then []
      else
        (if formats.contains "parquet" then [ReportArtifact.parquet_summary k] else [])
          ++ (if formats.contains "csv.gz" then [ReportArtifact.csv_summary k] else [])
          ++ generate_summary_file formats summary_data rest

/-- `generate_output_archives`: one archive per configured scenario. -/
def generate_output_archives (scenarioKeys : List String) : List ReportArtifact :=
  scenarioKeys.map ReportArtifact.output_archive

/-- The `item is None` (terminating sentinel) branch of `summary_process`:
always write the overview report; if any docking batch was processed, also
emit the summary tables and the per-scenario output archives. -/
def summary_sentinel_artifacts (formats : List String) (scenarioKeys : List String)
    (summary_data : List (String × List (String × SummaryRow)))
    (dockings_processed : Nat) : List ReportArtifact :=
  ReportArtifact.overview_report ::
    (if 0 < dockings_processed then
      generate_summary_file formats summary_data scenarioKeys
        ++ generate_output_archives scenarioKeys
    else [])

/-! Executor (`docking_process_batch`). -/

/-- Result of the backend `subprocess.run` plus result parsing for one
invocation: a timeout, or completion with a return code and — for the
registered backends, whose completion parsers catch their own exceptions —
the parsed score if one was extracted. -/
inductive ExecResult where
  | timeout
  | completed (returncode : Int) (parsed_score : Option ℚ)
deriving DecidableEq

/-- One entry of the `DOCKING_PROGRAMS` dispatch table: whether it provides
a `start` (command construction) and an `end` (completion parsing) function,
and its `ligands` execution model. -/
structure ProgramEntry where
  has_start : Bool
  has_end : Bool
  ligands : String
deriving DecidableEq

/-- The shipped `DOCKING_PROGRAMS` table: all 58 registered programs provide
both a start and an end function and use the `"single"` execution model. -/
def DOCKING_PROGRAMS : List (String × ProgramEntry) := [
   ("MpSDockZN", ⟨true, true, "single"⟩),
   ("HDock", ⟨true, true, "single"⟩),
   ("dock6", ⟨true, true, "single"⟩),
   ("Flexx", ⟨true, true, "single"⟩),
   ("CovDock", ⟨true, true, "single"⟩),
   ("Glide_SP", ⟨true, true, "single"⟩),
   ("Glide_XP", ⟨true, true, "single"⟩),
   ("Glide_HTVS", ⟨true, true, "single"⟩),
   ("qvina02", ⟨true, true, "single"⟩),
   ("qvina_w", ⟨true, true, "single"⟩),
   ("vina", ⟨true, true, "single"⟩),
   ("vina_carb", ⟨true, true, "single"⟩),
   ("vina_xb", ⟨true, true, "single"⟩),
   ("gwovina", ⟨true, true, "single"⟩),
   ("AutodockVina_1.2", ⟨true, true, "single"⟩),
   ("AutodockZN", ⟨true, true, "single"⟩),
   ("smina", ⟨true, true, "single"⟩),
   ("adfr", ⟨true, true, "single"⟩),
   ("plants", ⟨true, true, "single"⟩),
   ("gnina", ⟨true, true, "single"⟩),
   ("rDock", ⟨true, true, "single"⟩),
   ("M-Dock", ⟨true, true, "single"⟩),
   ("MCDock", ⟨true, true, "single"⟩),
   ("LigandFit", ⟨true, true, "single"⟩),
   ("ledock", ⟨true, true, "single"⟩),
   ("gold", ⟨true, true, "single"⟩),
   ("iGemDock", ⟨true, true, "single"⟩),
   ("idock", ⟨true, true, "single"⟩),
   ("GalaxyDock3", ⟨true, true, "single"⟩),
   ("autodock_cpu", ⟨true, true, "single"⟩),
   ("autodock_gpu", ⟨true, true, "single"⟩),
   ("autodock_koto", ⟨true, true, "single"⟩),
   ("RLDock", ⟨true, true, "single"⟩),
   ("PSOVina", ⟨true, true, "single"⟩),
   ("LightDock", ⟨true, true, "single"⟩),
   ("FitDock", ⟨true, true, "single"⟩),
   ("Molegro", ⟨true, true, "single"⟩),
   ("rosetta-ligand", ⟨true, true, "single"⟩),
   ("SEED", ⟨true, true, "single"⟩),
   ("FRED", ⟨true, true, "single"⟩),
   ("scoring_nnscore2.0", ⟨true, true, "single"⟩),
   ("scoring_asp", ⟨true, true, "single"⟩),
   ("scoring_chemscore", ⟨true, true, "single"⟩),
   ("scoring_goldscore", ⟨true, true, "single"⟩),
   ("scoring_plp", ⟨true, true, "single"⟩),
   ("scoring_rf-score-vs", ⟨true, true, "single"⟩),
   ("scoring_smina", ⟨true, true, "single"⟩),
   ("scoring_start_gnina", ⟨true, true, "single"⟩),
   ("scoring_ad4", ⟨true, true, "single"⟩),
   ("scoring_vinardo", ⟨true, true, "single"⟩),
   ("scoring_vina", ⟨true, true, "single"⟩),
   ("scoring_PLANTS_chemplp", ⟨true, true, "single"⟩),
   ("scoring_PLANTS_plp", ⟨true, true, "single"⟩),
   ("scoring_PLANTS_plp95", ⟨true, true, "single"⟩),
   ("scoring_dock6", ⟨true, true, "single"⟩),
   ("scoring_dock6_continuous", ⟨true, true, "single"⟩),
   ("scoring_MM_GBSA", ⟨true, true, "single"⟩),
   ("scoring_Hawkins_GBSA", ⟨true, true, "single"⟩)]

/-- Whether `program_runstring_array` raises `RuntimeError("No start
function")` for a program: it is unregistered, or its entry has no
`'start'`. -/
def program_runstring_array_raises (program : String) : Bool :=
  match alookup DOCKING_PROGRAMS program with
  | none => true
  | some entry => !entry.has_start

/-- One docking task as the Executor sees it; `program` is
`item['program']`, set by `submit_ligand_for_docking` from its scenario's
program; the subprocess/parse outcome is external input. -/
structure ExecTask where
  ligand_key : String
  uuid : String
  program : String
  exec : ExecResult
deriving DecidableEq

/-- Filesystem events on the per-invocation scratch directories:
`docking_process_setup_common` creates `tmp_run_dir`,
`docking_process_clean_common` removes it. -/
inductive FsEvent where
  | mkdir_run_dir (uuid : String)
  | rmtree_run_dir (uuid : String)
deriving DecidableEq

/-- Status and score of one completed invocation: `"success"` with a score
only when the subprocess returned 0 and the completion parser extracted a
score; otherwise `"failed"` (timeout, non-zero exit, or parse failure). -/
def run_task_status (exec : ExecResult) : String × Option ℚ :=
  match exec with
  | .timeout => ("failed", none)
  | .completed code parsed =>
      if code = 0 then
        match parsed with
        | some s => ("success", some s)
        | none => ("failed", none)
      else ("failed", none)

/-- The `"single"` execution model loop of `docking_process_batch`: for each
item, `docking_process_setup_common` creates its `tmp_run_dir`; if
`program_runstring_array` raises, the `RuntimeError` is logged and re-raised,
aborting the loop before `docking_process_clean_common` runs; otherwise the
invocation runs, its result is parsed, and `docking_process_clean_common`
removes the `tmp_run_dir` on the timeout, non-zero-exit, parse-failure and
success paths alike.  Returns the filesystem trace and — unless command
generation raised — the per-item (status, score). -/
def docking_process_single : List ExecTask →
    List FsEvent × Option (List (String × String × Option ℚ))
  | [] => ([], some [])
  | t :: rest =>
      if program_runstring_array_raises t.program then
        ([FsEvent.mkdir_run_dir t.uuid], none)
      else
        match docking_process_single rest with
        | (evs, none) =>
            (FsEvent.mkdir_run_dir t.uuid :: FsEvent.rmtree_run_dir t.uuid :: evs, none)
        | (evs, some rs) =>
            (FsEvent.mkdir_run_dir t.uuid :: FsEvent.rmtree_run_dir t.uuid :: evs,
             some ((t.ligand_key, run_task_status t.exec) :: rs))

/-- The `"batch"` execution model branch: one shared `tmp_run_dir`.  A
command-generation `RuntimeError` is re-raised before cleanup; on every
other path the branch formats `batched_item['seconds']` right before the
cleanup call — a key that only `docking_process_clean_common` (not yet run)
sets — so it raises `KeyError` before its `shutil.rmtree` regardless of the
invocation's outcome. -/
def docking_process_batch_exec (uuid : String) (program : String) :
    List FsEvent × Option (List (String × String × Option ℚ)) :=
  if program_runstring_array_raises program then
    ([FsEvent.mkdir_run_dir uuid], none)
  else
    ([FsEvent.mkdir_run_dir uuid], none)

/-- `docking_process_batch`: returns at once on an empty batch; building
`batched_item` dereferences `DOCKING_PROGRAMS[scenario['program']]['ligands']`,
so an unregistered program raises `KeyError` there, before any setup has
created a run directory; then it dispatches on the execution model (an
unknown model raises `RuntimeError`, likewise before any setup). -/
def docking_process_batch (scenario_program : String) (batch_uuid : String)
    (items : List ExecTask) :
    List FsEvent × Option (List (String × String × Option ℚ)) :=
  if items.length = 0 then ([], some [])
  else
    match alookup DOCKING_PROGRAMS scenario_program with
    | none => ([], none)
    | some entry =>
        if entry.ligands = "single" then docking_process_single items
        else if entry.ligands = "batch" then
          docking_process_batch_exec batch_uuid scenario_program
        else ([], none)

/-! Concrete example values used by the closed witness theorems. -/

/-- A successful docking outcome of ligand `L1` of collection `ABCD_1`. -/
def exOutcomeS : DockingOutcome :=
  ⟨"L1", "ABCD_1", "ABCD_1", "s1", "success", 5, [("smi", "C")],
   ⟨"ABCD_1", "ABCD_1", "L1", ""⟩⟩

/-- A failed docking outcome of ligand `L2` of collection `ABCD_1`. -/
def exOutcomeF : DockingOutcome :=
  ⟨"L2", "ABCD_1", "ABCD_1", "s1", "failed", 0, [("smi", "N")],
   ⟨"ABCD_1", "ABCD_1", "L2", "timeout on L2"⟩⟩

/-- One batch with both outcomes, then the collection's delete marker
expecting 2 completions. -/
def exEvents : List SummaryItem :=
  [SummaryItem.docking_complete [exOutcomeS, exOutcomeF] "single",
   SummaryItem.delete "ABCD_1" 2 "/tmp/vfvs/coll"]

/-- The same batch without any delete marker. -/
def exEventsNoDelete : List SummaryItem :=
  [SummaryItem.docking_complete [exOutcomeS, exOutcomeF] "single"]

/-- One configured scenario with two replicas. -/
def exScenarios : List ScenarioConf := [⟨"s1", 2, 1, "qvina02"⟩]

/-- A line-scan verdict that skips ligand `L2` and passes everything else. -/
def exSkipVerdict : String → Option String :=
  fun name => if name = "L2" then some "duplicate coordinates" else none

/-- Two ligands of collection `ABCD_1`. -/
def exLigs : List (String × LigandRecord) :=
  [("L1", ⟨"ABCD_1", "ABCD_1"⟩), ("L2", ⟨"ABCD_1", "ABCD_1"⟩)]

/-- A successfully unpacked collection item. -/
def exCollectionItem : CollectionItem := ⟨"ABCD_1", "/tmp/vfvs/coll", some exLigs⟩

/-- A collection item whose archive failed to open (`ligands` is `None`). -/
def exCollectionItemBad : CollectionItem := ⟨"ABCD_1", "/tmp/vfvs/coll", none⟩

/-- Four executable docking tasks of the registered program `qvina02`,
covering the timeout, non-zero-exit, parse-failure and success paths. -/
def exExecTasks : List ExecTask :=
  [⟨"L1", "u1", "qvina02", ExecResult.timeout⟩,
   ⟨"L2", "u2", "qvina02", ExecResult.completed 1 none⟩,
   ⟨"L3", "u3", "qvina02", ExecResult.completed 0 none⟩,
   ⟨"L4", "u4", "qvina02", ExecResult.completed 0 (some 5)⟩]

/-- One summary row of scenario `s2` (used by the report-generation
examples). -/
def exRowS2 : SummaryRow := ⟨"L1", "AB_1", "s2", [(3 : ℚ)], [("smi", "C")]⟩

/-- One summary row used by the csv-ordering counterexample. -/
def exRowCsv : SummaryRow := ⟨"L1", "AB_1", "s1", [(3 : ℚ)], [("smi", "C")]⟩

/-- Archive members: two ligand files and the `.listing` sidecar. -/
def exMembers : List TarMember :=
  [⟨false, "L1.pdbqt"⟩, ⟨false, "L2.pdbqt"⟩, ⟨false, ".listing"⟩]

/-- Parsed `.listing` rows: `L1` ranked 0 under tranche key `EFGH_2`, `L2`
ranked 5 under `EFGH_3`. -/
def exRows : List ListingRow := [⟨"EFGH_2", "L1", 0⟩, ⟨"EFGH_3", "L2", 5⟩]

/-- Final Aggregator state of the example stream. -/
def exFinalState : AggState :=
  (summary_process ["s1"] exEvents).getD (initialAggState [])

/-- The example scenario's summary table in that state. -/
def exFinalTable : List (String × SummaryRow) :=
  (alookup exFinalState.summary_data "s1").getD []

/-- The example ligand's summary row in that table. -/
def exFinalRow : SummaryRow :=
  (alookup exFinalTable "L1").getD ⟨"", "", "", [], []⟩

theorem check_of_lookup_none {st : AggState} {k : String}
    (h : alookup st.collection_completions k = none) :
    check_for_completion_of_collection_key st k = st := by
  unfold check_for_completion_of_collection_key
  rw [h]

theorem check_of_lookup_eq {st : AggState} {k : String} (e : CompletionEntry)
    (h : alookup st.collection_completions k = some e)
    (he : e.current_completions = e.expected_completions) :
    check_for_completion_of_collection_key st k
      = { st with
          collection_completions := aerase st.collection_completions k
          completed_collections := st.completed_collections ++ [k] } := by
  unfold check_for_completion_of_collection_key
  rw [h]
  simp [he]

theorem check_of_lookup_ne {st : AggState} {k : String} (e : CompletionEntry)
    (h : alookup st.collection_completions k = some e)
    (he : ¬ e.current_completions = e.expected_completions) :
    check_for_completion_of_collection_key st k = st := by
  unfold check_for_completion_of_collection_key
  rw [h]
  simp [he]

theorem updateCompletions_lookup_self (st : AggState) (k : String) :
    alookup (updateCompletions st k).collection_completions k
      = (outcomeStep (alookup st.collection_completions k)).1 := by
  unfold updateCompletions outcomeStep
  cases h : alookup st.collection_completions k with
  | none => simp [alookup_aset_self]
  | some entry =>
      simp only [check_for_completion_of_collection_key, alookup_aset_self]
      by_cases hc : entry.current_completions + 1 = entry.expected_completions
      · simp [hc, alookup_aerase_self]
      · simp [hc, alookup_aset_self]

theorem updateCompletions_lookup_ne (st : AggState) (k q : String) (h : k ≠ q) :
    alookup (updateCompletions st k).collection_completions q
      = alookup st.collection_completions q := by
  unfold updateCompletions
  cases hl : alookup st.collection_completions k with
  | none => simp [alookup_aset_ne _ _ _ _ h]
  | some entry =>
      simp only [check_for_completion_of_collection_key, alookup_aset_self]
      by_cases hc : entry.current_completions + 1 = entry.expected_completions
      · simp [hc, alookup_aerase_ne _ _ _ h, alookup_aset_ne _ _ _ _ h]
      · simp [hc, alookup_aset_ne _ _ _ _ h]

theorem updateCompletions_completed (st : AggState) (k : String) :
    (updateCompletions st k).completed_collections
      = st.completed_collections
        ++ (if (outcomeStep (alookup st.collection_completions k)).2 then [k] else []) := by
  unfold updateCompletions outcomeStep
  cases hl : alookup st.collection_completions k with
  | none => simp
  | some entry =>
      simp only [check_for_completion_of_collection_key, alookup_aset_self]
      by_cases hc : entry.current_completions + 1 = entry.expected_completions
      · simp [hc]
      · simp [hc]

theorem updateCompletions_frame (st : AggState) (k : String) :
    (updateCompletions st k).total_dockings = st.total_dockings ∧
    (updateCompletions st k).dockings_success = st.dockings_success ∧
    (updateCompletions st k).dockings_failed = st.dockings_failed ∧
    (updateCompletions st k).summary_data = st.summary_data ∧
    (updateCompletions st k).dockings_processed = st.dockings_processed := by
  unfold updateCompletions
  cases hl : alookup st.collection_completions k with
  | none => simp
  | some entry =>
      simp only [check_for_completion_of_collection_key, alookup_aset_self]
      by_cases hc : entry.current_completions + 1 = entry.expected_completions
      · simp [hc]
      · simp [hc]

theorem handleDelete_lookup_self (st : AggState) (k : String) (n : Int) (d : String) :
    alookup (handleDelete st k n d).collection_completions k
      = (deleteStep (alookup st.collection_completions k) n d).1 := by
  unfold handleDelete deleteStep
  cases hl : alookup st.collection_completions k with
  | none =>
      by_cases hc : (0 : Int) = n
      · rw [check_of_lookup_eq ⟨n, 0, d⟩ (by simp [alookup_aset_self])
          (by simpa using hc)]
        simp [alookup_aerase_self, if_pos hc]
      · rw [check_of_lookup_ne ⟨n, 0, d⟩ (by simp [alookup_aset_self])
          (by simpa using hc)]
        simp [alookup_aset_self, if_neg hc]
  | some entry =>
      by_cases hc : entry.current_completions = n
      · rw [check_of_lookup_eq
          { entry with expected_completions := n, temp_dir := d }
          (by simp [alookup_aset_self]) (by simpa using hc)]
        simp [alookup_aerase_self, if_pos hc]
      · rw [check_of_lookup_ne
          { entry with expected_completions := n, temp_dir := d }
          (by simp [alookup_aset_self]) (by simpa using hc)]
        simp [alookup_aset_self, if_neg hc]

theorem handleDelete_lookup_ne (st : AggState) (k : String) (n : Int) (d : String)
    (q : String) (h : k ≠ q) :
    alookup (handleDelete st k n d).collection_completions q
      = alookup st.collection_completions q := by
  unfold handleDelete
  cases hl : alookup st.collection_completions k with
  | none =>
      by_cases hc : (0 : Int) = n
      · rw [check_of_lookup_eq ⟨n, 0, d⟩ (by simp [alookup_aset_self])
          (by simpa using hc)]
        simp [alookup_aerase_ne _ _ _ h, alookup_aset_ne _ _ _ _ h]
      · rw [check_of_lookup_ne ⟨n, 0, d⟩ (by simp [alookup_aset_self])
          (by simpa using hc)]
        simp [alookup_aset_ne _ _ _ _ h]
  | some entry =>
      by_cases hc : entry.current_completions = n
      · rw [check_of_lookup_eq
          { entry with expected_completions := n, temp_dir := d }
          (by simp [alookup_aset_self]) (by simpa using hc)]
        simp [alookup_aerase_ne _ _ _ h, alookup_aset_ne _ _ _ _ h]
      · rw [check_of_lookup_ne
          { entry with expected_completions := n, temp_dir := d }
          (by simp [alookup_aset_self]) (by simpa using hc)]
        simp [alookup_aset_ne _ _ _ _ h]

theorem handleDelete_completed (st : AggState) (k : String) (n : Int) (d : String) :
    (handleDelete st k n d).completed_collections
      = st.completed_collections
        ++ (if (deleteStep (alookup st.collection_completions k) n d).2 then [k] else []) := by
  unfold handleDelete deleteStep
  cases hl : alookup st.collection_completions k with
  | none =>
      by_cases hc : (0 : Int) = n
      · rw [check_of_lookup_eq ⟨n, 0, d⟩ (by simp [alookup_aset_self])
          (by simpa using hc)]
        simp [if_pos hc]
      · rw [check_of_lookup_ne ⟨n, 0, d⟩ (by simp [alookup_aset_self])
          (by simpa using hc)]
        simp [if_neg hc]
  | some entry =>
      by_cases hc : entry.current_completions = n
      · rw [check_of_lookup_eq
          { entry with expected_completions := n, temp_dir := d }
          (by simp [alookup_aset_self]) (by simpa using hc)]
        simp [if_pos hc]
      · rw [check_of_lookup_ne
          { entry with expected_completions := n, temp_dir := d }
          (by simp [alookup_aset_self]) (by simpa using hc)]
        simp [if_neg hc]

theorem handleDelete_frame (st : AggState) (k : String) (n : Int) (d : String) :
    (handleDelete st k n d).total_dockings = st.total_dockings ∧
    (handleDelete st k n d).dockings_success = st.dockings_success ∧
    (handleDelete st k n d).dockings_failed = st.dockings_failed ∧
    (handleDelete st k n d).summary_data = st.summary_data ∧
    (handleDelete st k n d).dockings_processed = st.dockings_processed := by
  unfold handleDelete
  cases hl : alookup st.collection_completions k with
  | none =>
      by_cases hc : (0 : Int) = n
      · rw [check_of_lookup_eq ⟨n, 0, d⟩ (by simp [alookup_aset_self])
          (by simpa using hc)]
        simp
      · rw [check_of_lookup_ne ⟨n, 0, d⟩ (by simp [alookup_aset_self])
          (by simpa using hc)]
        simp
  | some entry =>
      by_cases hc : entry.current_completions = n
      · rw [check_of_lookup_eq
          { entry with expected_completions := n, temp_dir := d }
          (by simp [alookup_aset_self]) (by simpa using hc)]
        simp
      · rw [check_of_lookup_ne
          { entry with expected_completions := n, temp_dir := d }
          (by simp [alookup_aset_self]) (by simpa using hc)]
        simp

theorem incrementStatus_spec {st st' : AggState} {status : String}
    (h : incrementStatus st status = some st') :
    st'.total_dockings = st.total_dockings ∧
    st'.dockings_success + st'.dockings_failed
      = st.dockings_success + st.dockings_failed + 1 ∧
    st'.collection_completions = st.collection_completions ∧
    st'.completed_collections = st.completed_collections ∧
    st'.summary_data = st.summary_data ∧
    st'.dockings_processed = st.dockings_processed := by
  unfold incrementStatus at h
  by_cases hs : status = "success"
  · rw [if_pos hs] at h
    cases h
    simp [Nat.add_right_comm]
  · rw [if_neg hs] at h
    by_cases hf : status = "failed"
    · rw [if_pos hf] at h
      cases h
      simp [Nat.add_assoc]
    · rw [if_neg hf] at h
      cases h

theorem recordOutcome_spec {st st' : AggState} {it : DockingOutcome}
    (h : recordOutcome st it = some st') :
    st'.total_dockings = st.total_dockings ∧
    st'.dockings_success = st.dockings_success ∧
    st'.dockings_failed = st.dockings_failed ∧
    st'.collection_completions = st.collection_completions ∧
    st'.completed_collections = st.completed_collections ∧
    (∀ s, (alookup st'.summary_data s).isSome = (alookup st.summary_data s).isSome) ∧
    st'.dockings_processed = st.dockings_processed := by
  unfold recordOutcome at h
  by_cases hs : it.status = "success"
  · rw [if_pos hs] at h
    cases hl : alookup st.summary_data it.scenario_key with
    | none => rw [hl] at h; cases h
    | some table =>
        rw [hl] at h
        cases h
        refine ⟨rfl, rfl, rfl, rfl, rfl, ?_, rfl⟩
        intro s
        by_cases hk : it.scenario_key = s
        · subst hk
          simp [alookup_aset_self, hl]
        · simp [alookup_aset_ne _ _ _ _ hk]
  · rw [if_neg hs] at h
    cases h
    simp

theorem handleDockingOutcome_canon {st st' : AggState} {it : DockingOutcome}
    (h : handleDockingOutcome st it = some st') :
    ∃ stm : AggState,
      st' = updateCompletions stm it.base_collection_key ∧
      stm.collection_completions = st.collection_completions ∧
      stm.completed_collections = st.completed_collections ∧
      stm.total_dockings = st.total_dockings + 1 ∧
      stm.dockings_success + stm.dockings_failed
        = st.dockings_success + st.dockings_failed + 1 ∧
      (∀ s, (alookup stm.summary_data s).isSome = (alookup st.summary_data s).isSome) ∧
      stm.dockings_processed = st.dockings_processed := by
  unfold handleDockingOutcome at h
  cases hinc : incrementStatus
      { st with total_dockings := st.total_dockings + 1 } it.status with
  | none =>
      simp only [hinc] at h
      exact absurd h (by simp)
  | some st2 =>
      simp only [hinc] at h
      cases hrec : recordOutcome st2 it with
      | none =>
          simp only [hrec] at h
          exact absurd h (by simp)
      | some st3 =>
          simp only [hrec, Option.some.injEq] at h
          obtain ⟨hi1, hi2, hi3, hi4, hi5, hi6⟩ := incrementStatus_spec hinc
          obtain ⟨hr1, hr2, hr3, hr4, hr5, hr6, hr7⟩ := recordOutcome_spec hrec
          refine ⟨st3, h.symm, ?_, ?_, ?_, ?_, ?_, ?_⟩
          · rw [hr4, hi3]
          · rw [hr5, hi4]
          · rw [hr1, hi1]
          · rw [hr2, hr3, hi2]
          · intro s
            rw [hr6 s, hi5]
          · rw [hr7, hi6]

/-- Full effect of processing one docking outcome, as observed by the
completion map, the archive trace, the overview counters and the summary
table keys. -/
theorem handleDockingOutcome_effect {st st' : AggState} {it : DockingOutcome}
    (h : handleDockingOutcome st it = some st') :
    alookup st'.collection_completions it.base_collection_key
      = (outcomeStep (alookup st.collection_completions it.base_collection_key)).1 ∧
    (∀ q, it.base_collection_key ≠ q →
      alookup st'.collection_completions q = alookup st.collection_completions q) ∧
    st'.completed_collections
      = st.completed_collections
        ++ (if (outcomeStep (alookup st.collection_completions it.base_collection_key)).2
            then [it.base_collection_key] else []) ∧
    st'.total_dockings = st.total_dockings + 1 ∧
    st'.dockings_success + st'.dockings_failed
      = st.dockings_success + st.dockings_failed + 1 ∧
    (∀ s, (alookup st'.summary_data s).isSome = (alookup st.summary_data s).isSome) ∧
    st'.dockings_processed = st.dockings_processed := by
  obtain ⟨stm, hst, hcc, hco, htot, hsf, hsum, hproc⟩ := handleDockingOutcome_canon h
  obtain ⟨hf1, hf2, hf3, hf4, hf5⟩ := updateCompletions_frame stm it.base_collection_key
  subst hst
  refine ⟨?_, ?_, ?_, ?_, ?_, ?_, ?_⟩
  · rw [updateCompletions_lookup_self, hcc]
  · intro q hq
    rw [updateCompletions_lookup_ne _ _ _ hq, hcc]
  · rw [updateCompletions_completed, hcc, hco]
  · rw [hf1, htot]
  · rw [hf2, hf3, hsf]
  · intro s
    rw [hf4, hsum s]
  · rw [hf5, hproc]

theorem incrementStatus_isSome (st : AggState) {status : String}
    (hval : status = "success" ∨ status = "failed") :
    ∃ st2, incrementStatus st status = some st2 ∧ st2.summary_data = st.summary_data := by
  unfold incrementStatus
  by_cases hs : status = "success"
  · rw [if_pos hs]
    exact ⟨_, rfl, rfl⟩
  · have hf : status = "failed" := hval.resolve_left hs
    rw [if_neg hs, if_pos hf]
    exact ⟨_, rfl, rfl⟩

theorem recordOutcome_isSome (st : AggState) {it : DockingOutcome}
    (hscen : it.status = "success" →
      (alookup st.summary_data it.scenario_key).isSome = true) :
    ∃ st3, recordOutcome st it = some st3 := by
  unfold recordOutcome
  by_cases hs : it.status = "success"
  · rw [if_pos hs]
    cases hl : alookup st.summary_data it.scenario_key with
    | none => exact absurd (hscen hs) (by rw [hl]; simp)
    | some table => exact ⟨_, rfl⟩
  · rw [if_neg hs]
    exact ⟨_, rfl⟩

theorem handleDockingOutcome_isSome {st : AggState} {it : DockingOutcome}
    (hval : it.status = "success" ∨ it.status = "failed")
    (hscen : it.status = "success" →
      (alookup st.summary_data it.scenario_key).isSome = true) :
    ∃ st', handleDockingOutcome st it = some st' := by
  obtain ⟨st2, h2, hsum2⟩ :=
    incrementStatus_isSome { st with total_dockings := st.total_dockings + 1 } hval
  have hscen2 : it.status = "success" →
      (alookup st2.summary_data it.scenario_key).isSome = true := by
    intro hs
    rw [hsum2]
    simpa using hscen hs
  obtain ⟨st3, h3⟩ := recordOutcome_isSome st2 hscen2
  refine ⟨updateCompletions st3 it.base_collection_key, ?_⟩
  unfold handleDockingOutcome
  simp only [h2, h3]

theorem handleDockingOutcomes_counters (items : List DockingOutcome) :
    ∀ st st' : AggState, handleDockingOutcomes st items = some st' →
      st'.total_dockings = st.total_dockings + items.length ∧
      st'.dockings_success + st'.dockings_failed
        = st.dockings_success + st.dockings_failed + items.length ∧
      st'.dockings_processed = st.dockings_processed := by
  induction items with
  | nil =>
      intro st st' h
      simp only [handleDockingOutcomes, Option.some.injEq] at h
      subst h
      simp
  | cons it rest ih =>
      intro st st' h
      simp only [handleDockingOutcomes] at h
      cases hstep : handleDockingOutcome st it with
      | none =>
          simp only [hstep] at h
          exact absurd h (by simp)
      | some stm =>
          simp only [hstep] at h
          obtain ⟨h1, h2, h3⟩ := ih stm st' h
          obtain ⟨-, -, -, e4, e5, -, e7⟩ := handleDockingOutcome_effect hstep
          refine ⟨?_, ?_, ?_⟩
          · rw [h1, e4]
            simp only [List.length_cons]
            omega
          · rw [h2, e5]
            simp only [List.length_cons]
            omega
          · rw [h3, e7]

theorem runSummaryEvents_counters_inv (events : List SummaryItem) :
    ∀ st st' : AggState, runSummaryEvents st events = some st' →
      st.dockings_success + st.dockings_failed = st.total_dockings →
      st'.dockings_success + st'.dockings_failed = st'.total_dockings := by
  induction events with
  | nil =>
      intro st st' h hinv
      simp only [runSummaryEvents, Option.some.injEq] at h
      subst h
      exact hinv
  | cons ev rest ih =>
      intro st st' h hinv
      simp only [runSummaryEvents] at h
      cases hstep : processSummaryItem st ev with
      | none =>
          simp only [hstep] at h
          exact absurd h (by simp)
      | some stm =>
          simp only [hstep] at h
          refine ih stm st' h ?_
          cases ev with
          | delete k n d =>
              simp only [processSummaryItem, Option.some.injEq] at hstep
              subst hstep
              obtain ⟨f1, f2, f3, -, -⟩ := handleDelete_frame st k n d
              rw [f1, f2, f3]
              exact hinv
          | download_failed k r dk =>
              simp only [processSummaryItem, Option.some.injEq] at hstep
              subst hstep
              simpa using hinv
          | skip log =>
              simp only [processSummaryItem, Option.some.injEq] at hstep
              subst hstep
              simpa using hinv
          | docking_complete items ty =>
              simp only [processSummaryItem] at hstep
              obtain ⟨h1, h2, -⟩ := handleDockingOutcomes_counters items _ _ hstep
              simp at h1 h2
              omega

theorem handleDockingOutcomes_inv3 (k : String) (items : List DockingOutcome) :
    ∀ st st', handleDockingOutcomes st items = some st' →
      (∀ e, alookup st.collection_completions k = some e →
          e.expected_completions = -1 ∧ 1 ≤ e.current_completions) →
      (∀ e, alookup st'.collection_completions k = some e →
          e.expected_completions = -1 ∧ 1 ≤ e.current_completions) ∧
      st'.completed_collections.count k = st.completed_collections.count k := by
  induction items with
  | nil =>
      intro st st' h hinv
      simp only [handleDockingOutcomes, Option.some.injEq] at h
      subst h
      exact ⟨hinv, rfl⟩
  | cons it rest ih =>
      intro st st' h hinv
      simp only [handleDockingOutcomes] at h
      cases hstep : handleDockingOutcome st it with
      | none =>
          simp only [hstep] at h
          exact absurd h (by simp)
      | some stm =>
          simp only [hstep] at h
          obtain ⟨e1, e2, e3, -, -, -, -⟩ := handleDockingOutcome_effect hstep
          by_cases hb : it.base_collection_key = k
          · rw [hb] at e1 e3
            cases hl : alookup st.collection_completions k with
            | none =>
                rw [hl] at e1 e3
                simp only [outcomeStep] at e1 e3
                have hinv' : ∀ e, alookup stm.collection_completions k = some e →
                    e.expected_completions = -1 ∧ 1 ≤ e.current_completions := by
                  intro e he
                  rw [e1] at he
                  cases he
                  exact ⟨rfl, by norm_num⟩
                obtain ⟨hi, hcnt⟩ := ih stm st' h hinv'
                refine ⟨hi, ?_⟩
                rw [hcnt, e3]
                simp
            | some entry =>
                obtain ⟨hexp, hcur⟩ := hinv entry hl
                have hne : ¬ (entry.current_completions + 1 = entry.expected_completions) := by
                  rw [hexp]
                  omega
                rw [hl] at e1 e3
                simp only [outcomeStep, if_neg hne] at e1 e3
                have hinv' : ∀ e, alookup stm.collection_completions k = some e →
                    e.expected_completions = -1 ∧ 1 ≤ e.current_completions := by
                  intro e he
                  rw [e1] at he
                  cases he
                  refine ⟨hexp, ?_⟩
                  show 1 ≤ entry.current_completions + 1
                  omega
                obtain ⟨hi, hcnt⟩ := ih stm st' h hinv'
                refine ⟨hi, ?_⟩
                rw [hcnt, e3]
                simp
          · have hm : alookup stm.collection_completions k
                = alookup st.collection_completions k := e2 k hb
            have hinv' : ∀ e, alookup stm.collection_completions k = some e →
                e.expected_completions = -1 ∧ 1 ≤ e.current_completions := by
              intro e he
              rw [hm] at he
              exact hinv e he
            obtain ⟨hi, hcnt⟩ := ih stm st' h hinv'
            refine ⟨hi, ?_⟩
            rw [hcnt, e3]
            cases hfired : (outcomeStep
                (alookup st.collection_completions it.base_collection_key)).2 with
            | false => simp
            | true => simp [List.count_append, List.count_cons, List.count_nil, hb]

theorem runSummaryEvents_inv3 (k : String) (events : List SummaryItem) :
    ∀ st st', runSummaryEvents st events = some st' →
      events.filter (isDeleteForKey k) = [] →
      (∀ e, alookup st.collection_completions k = some e →
          e.expected_completions = -1 ∧ 1 ≤ e.current_completions) →
      (∀ e, alookup st'.collection_completions k = some e →
          e.expected_completions = -1 ∧ 1 ≤ e.current_completions) ∧
      st'.completed_collections.count k = st.completed_collections.count k := by
  induction events with
  | nil =>
      intro st st' h _ hinv
      simp only [runSummaryEvents, Option.some.injEq] at h
      subst h
      exact ⟨hinv, rfl⟩
  | cons ev rest ih =>
      intro st st' h hf hinv
      have hf0 : isDeleteForKey k ev = false := by
        by_cases hd : isDeleteForKey k ev = true
        · rw [List.filter_cons_of_pos hd] at hf
          cases hf
        · simpa using hd
      have hfr : rest.filter (isDeleteForKey k) = [] := by
        rw [List.filter_cons_of_neg (by simp [hf0])] at hf
        exact hf
      simp only [runSummaryEvents] at h
      cases hstep : processSummaryItem st ev with
      | none =>
          simp only [hstep] at h
          exact absurd h (by simp)
      | some stm =>
          simp only [hstep] at h
          cases ev with
          | delete k' n d =>
              have hk : k' ≠ k := by
                simpa [isDeleteForKey] using hf0
              simp only [processSummaryItem, Option.some.injEq] at hstep
              subst hstep
              have hinv' : ∀ e,
                  alookup (handleDelete st k' n d).collection_completions k = some e →
                  e.expected_completions = -1 ∧ 1 ≤ e.current_completions := by
                intro e he
                rw [handleDelete_lookup_ne st k' n d k hk] at he
                exact hinv e he
              obtain ⟨hi, hcnt⟩ := ih _ st' h hfr hinv'
              refine ⟨hi, ?_⟩
              rw [hcnt, handleDelete_completed]
              cases hfired : (deleteStep (alookup st.collection_completions k') n d).2 with
              | false => simp
              | true => simp [List.count_append, List.count_cons, List.count_nil, hk]
          | download_failed k2 r dk =>
              simp only [processSummaryItem, Option.some.injEq] at hstep
              obtain ⟨hi, hcnt⟩ := ih stm st' h hfr
                (by rw [← hstep]; simpa using hinv)
              refine ⟨hi, ?_⟩
              rw [hcnt, ← hstep]
          | skip log =>
              simp only [processSummaryItem, Option.some.injEq] at hstep
              obtain ⟨hi, hcnt⟩ := ih stm st' h hfr
                (by rw [← hstep]; simpa using hinv)
              refine ⟨hi, ?_⟩
              rw [hcnt, ← hstep]
          | docking_complete items ty =>
              simp only [processSummaryItem] at hstep
              obtain ⟨hi0, hcnt0⟩ :=
                handleDockingOutcomes_inv3 k items _ stm hstep (by simpa using hinv)
              obtain ⟨hi, hcnt⟩ := ih stm st' h hfr hi0
              refine ⟨hi, ?_⟩
              rw [hcnt, hcnt0]

theorem runSummaryEvents_append (a b : List SummaryItem) :
    ∀ st, runSummaryEvents st (a ++ b)
      = (runSummaryEvents st a).bind (fun stm => runSummaryEvents stm b) := by
  induction a with
  | nil => intro st; simp [runSummaryEvents]
  | cons ev rest ih =>
      intro st
      simp only [List.cons_append, runSummaryEvents]
      cases hstep : processSummaryItem st ev with
      | none => simp
      | some stm => simpa using ih stm

theorem scenariosPresent_of_isSome {scenarioKeys : List String} {st st' : AggState}
    (h : ∀ s, (alookup st'.summary_data s).isSome = (alookup st.summary_data s).isSome)
    (hp : ScenariosPresent scenarioKeys st) : ScenariosPresent scenarioKeys st' := by
  intro s hs
  rw [h s]
  exact hp s hs

theorem scenariosPresent_of_summary_eq {scenarioKeys : List String} {st st' : AggState}
    (h : st'.summary_data = st.summary_data)
    (hp : ScenariosPresent scenarioKeys st) : ScenariosPresent scenarioKeys st' := by
  intro s hs
  rw [h]
  exact hp s hs

theorem alookup_map_isSome {β : Type} (keys : List String) (f : String → β)
    (s : String) (hs : s ∈ keys) :
    (alookup (keys.map (fun t => (t, f t))) s).isSome = true := by
  induction keys with
  | nil => cases hs
  | cons kk rest ih =>
      simp only [List.map_cons, alookup]
      by_cases hk : kk = s
      · simp [hk]
      · have hmem : s ∈ rest := by
          cases List.mem_cons.mp hs with
          | inl h0 => exact absurd h0.symm hk
          | inr h0 => exact h0
        simp [hk, ih hmem]

theorem initial_scenariosPresent (scenarioKeys : List String) :
    ScenariosPresent scenarioKeys (initialAggState scenarioKeys) := by
  intro s hs
  simpa [initialAggState] using
    alookup_map_isSome scenarioKeys (fun _ => ([] : List (String × SummaryRow))) s hs

theorem isOutcomeBatchFor_elim {scenarioKeys : List String} {k : String}
    {ev : SummaryItem} (h : isOutcomeBatchFor scenarioKeys k ev = true) :
    ∃ items ty, ev = SummaryItem.docking_complete items ty ∧ items ≠ [] ∧
      ∀ it ∈ items, it.base_collection_key = k ∧
        (it.status = "success" ∨ it.status = "failed") ∧
        (it.status = "success" → it.scenario_key ∈ scenarioKeys) := by
  cases ev with
  | delete a b c => simp [isOutcomeBatchFor] at h
  | download_failed a b c => simp [isOutcomeBatchFor] at h
  | skip a => simp [isOutcomeBatchFor] at h
  | docking_complete items ty =>
      refine ⟨items, ty, rfl, ?_, ?_⟩
      · simp only [isOutcomeBatchFor, Bool.and_eq_true, Bool.not_eq_true'] at h
        intro he
        rw [he] at h
        simp at h
      · simp only [isOutcomeBatchFor, Bool.and_eq_true, List.all_eq_true,
          beq_iff_eq, isValidOutcome, Bool.or_eq_true, beq_iff_eq,
          Bool.not_eq_true', beq_eq_false_iff_ne] at h
        intro it hit
        obtain ⟨hbase, ⟨hstat, hcfg⟩⟩ := h.2 it hit
        refine ⟨hbase, hstat, ?_⟩
        intro hsucc
        cases hcfg with
        | inl hne => exact absurd hsucc hne
        | inr hmem => simpa using hmem

theorem totalOutcomes_zero_batches {scenarioKeys : List String} {k : String} :
    ∀ {events : List SummaryItem},
      events.all (isOutcomeBatchFor scenarioKeys k) = true →
      totalOutcomes events = 0 → events = [] := by
  intro events hev h0
  cases events with
  | nil => rfl
  | cons ev rest =>
      simp only [List.all_cons, Bool.and_eq_true] at hev
      obtain ⟨items, ty, hevEq, hne, -⟩ := isOutcomeBatchFor_elim hev.1
      subst hevEq
      simp only [totalOutcomes, List.map_cons, List.sum_cons, eventSize] at h0
      have : items.length = 0 := by omega
      exact absurd (List.length_eq_zero.mp this) hne

theorem handleDockingOutcomes_pre (scenarioKeys : List String) (k : String)
    (items : List DockingOutcome) :
    items.all (fun it => it.base_collection_key == k
        && isValidOutcome scenarioKeys it) = true →
    ∀ (st : AggState) (c : Nat),
      alookup st.collection_completions k = preEntry c →
      ScenariosPresent scenarioKeys st →
      ∃ st', handleDockingOutcomes st items = some st' ∧
        alookup st'.collection_completions k = preEntry (c + items.length) ∧
        st'.completed_collections = st.completed_collections ∧
        ScenariosPresent scenarioKeys st' := by
  induction items with
  | nil =>
      intro _ st c hl hp
      exact ⟨st, rfl, by simpa using hl, rfl, hp⟩
  | cons it rest ih =>
      intro hall st c hl hp
      simp only [List.all_cons, Bool.and_eq_true, beq_iff_eq] at hall
      obtain ⟨⟨hbase, hvalid⟩, hrest⟩ := hall
      simp only [isValidOutcome, Bool.and_eq_true, Bool.or_eq_true, beq_iff_eq,
        Bool.not_eq_true', beq_eq_false_iff_ne] at hvalid
      have hstat : it.status = "success" ∨ it.status = "failed" := hvalid.1
      have hscen : it.status = "success" →
          (alookup st.summary_data it.scenario_key).isSome = true := by
        intro hs
        cases hvalid.2 with
        | inl hne => exact absurd hs hne
        | inr hmem => exact hp _ (by simpa using hmem)
      obtain ⟨stm, hstep⟩ := handleDockingOutcome_isSome hstat hscen
      obtain ⟨e1, -, e3, -, -, e6, -⟩ := handleDockingOutcome_effect hstep
      rw [hbase] at e1 e3
      have hstep_entry : alookup stm.collection_completions k = preEntry (c + 1) ∧
          stm.completed_collections = st.completed_collections := by
        cases c with
        | zero =>
            rw [hl] at e1 e3
            simp only [preEntry, if_neg (by omega : ¬ (0 : Nat) = 0 → False)] at *
            constructor
            · rw [e1]
              simp [preEntry, outcomeStep]
            · rw [e3]
              simp [preEntry, outcomeStep]
        | succ m =>
            rw [hl] at e1 e3
            have hne : ¬ ((((m + 1 : Nat) : Int)) + 1
                = (⟨-1, ((m + 1 : Nat) : Int), ""⟩ : CompletionEntry).expected_completions) := by
              show ¬ ((((m + 1 : Nat) : Int)) + 1 = -1)
              omega
            constructor
            · rw [e1]
              simp only [preEntry, if_neg (Nat.succ_ne_zero m), outcomeStep]
              rw [if_neg hne]
              simp only [if_neg (Nat.succ_ne_zero (m + 1))]
              have : (((m + 1 : Nat) : Int)) + 1 = (((m + 1 + 1 : Nat)) : Int) := by
                push_cast
                ring
              simp [this]
            · rw [e3]
              simp only [preEntry, if_neg (Nat.succ_ne_zero m), outcomeStep]
              rw [if_neg hne]
              simp
      obtain ⟨st', hrun, hl', hco', hp'⟩ := ih hrest stm (c + 1) hstep_entry.1
        (scenariosPresent_of_isSome e6 hp)
      refine ⟨st', ?_, ?_, ?_, hp'⟩
      · simp only [handleDockingOutcomes, hstep]
        exact hrun
      · have harith : c + 1 + rest.length = c + (it :: rest).length := by
          simp [List.length_cons]
          omega
        rw [← harith]
        exact hl'
      · rw [hco', hstep_entry.2]

theorem outcomeItemValid_elim {scenarioKeys : List String} {k : String}
    {it : DockingOutcome}
    (h : (it.base_collection_key == k && isValidOutcome scenarioKeys it) = true) :
    it.base_collection_key = k ∧ (it.status = "success" ∨ it.status = "failed") ∧
    (it.status = "success" → it.scenario_key ∈ scenarioKeys) := by
  simp only [Bool.and_eq_true, beq_iff_eq, isValidOutcome, Bool.or_eq_true,
    Bool.not_eq_true', beq_eq_false_iff_ne] at h
  refine ⟨h.1, h.2.1, ?_⟩
  intro hs
  cases h.2.2 with
  | inl hne => exact absurd hs hne
  | inr hmem => simpa using hmem

theorem handleDockingOutcomes_post (scenarioKeys : List String) (k : String)
    (items : List DockingOutcome) :
    items.all (fun it => it.base_collection_key == k
        && isValidOutcome scenarioKeys it) = true →
    ∀ (st : AggState) (c n : Nat) (d : String),
      alookup st.collection_completions k = some ⟨(n : Int), (c : Int), d⟩ →
      c < n → c + items.length ≤ n →
      ScenariosPresent scenarioKeys st →
      ∃ st', handleDockingOutcomes st items = some st' ∧
        (if c + items.length = n then
            alookup st'.collection_completions k = none ∧
            st'.completed_collections = st.completed_collections ++ [k]
         else
            alookup st'.collection_completions k
                = some ⟨(n : Int), ((c + items.length : Nat) : Int), d⟩ ∧
            st'.completed_collections = st.completed_collections) ∧
        ScenariosPresent scenarioKeys st' := by
  induction items with
  | nil =>
      intro _ st c n d hl hlt hle hp
      refine ⟨st, rfl, ?_, hp⟩
      simp only [List.length_nil, Nat.add_zero]
      rw [if_neg (by omega)]
      exact ⟨by simpa using hl, by trivial⟩
  | cons it rest ih =>
      intro hall st c n d hl hlt hle hp
      simp only [List.all_cons, Bool.and_eq_true] at hall
      obtain ⟨hbase, hstat, hscen0⟩ :=
        outcomeItemValid_elim (by rw [Bool.and_eq_true]; exact ⟨hall.1.1, hall.1.2⟩)
      have hscen : it.status = "success" →
          (alookup st.summary_data it.scenario_key).isSome = true := by
        intro hs
        exact hp _ (hscen0 hs)
      obtain ⟨stm, hstep⟩ := handleDockingOutcome_isSome hstat hscen
      obtain ⟨e1, -, e3, -, -, e6, -⟩ := handleDockingOutcome_effect hstep
      rw [hbase, hl] at e1 e3
      by_cases hc1 : c + 1 = n
      · have hfire : ((c : Int)) + 1
            = (⟨(n : Int), (c : Int), d⟩ : CompletionEntry).expected_completions := by
          show ((c : Int)) + 1 = (n : Int)
          omega
        simp only [outcomeStep, if_pos hfire] at e1 e3
        have hrestnil : rest = [] := by
          apply List.length_eq_zero.mp
          simp only [List.length_cons] at hle
          omega
        subst hrestnil
        refine ⟨stm, ?_, ?_, scenariosPresent_of_isSome e6 hp⟩
        · simp only [handleDockingOutcomes, hstep]
        · rw [if_pos (by simpa using hc1)]
          exact ⟨e1, by simpa using e3⟩
      · have hnofire : ¬ (((c : Int)) + 1
            = (⟨(n : Int), (c : Int), d⟩ : CompletionEntry).expected_completions) := by
          show ¬ (((c : Int)) + 1 = (n : Int))
          omega
        simp only [outcomeStep, if_neg hnofire] at e1 e3
        have hl' : alookup stm.collection_completions k
            = some ⟨(n : Int), ((c + 1 : Nat) : Int), d⟩ := by
          rw [e1]
          show some (⟨(n : Int), ((c : Int)) + 1, d⟩ : CompletionEntry) = _
          rw [show ((c : Int)) + 1 = ((c + 1 : Nat) : Int) by push_cast; ring]
        have hco' : stm.completed_collections = st.completed_collections := by
          simpa using e3
        obtain ⟨st', hrun, hres, hp'⟩ := ih hall.2 stm (c + 1) n d hl'
          (by omega) (by simp only [List.length_cons] at hle; omega)
          (scenariosPresent_of_isSome e6 hp)
        refine ⟨st', ?_, ?_, hp'⟩
        · simp only [handleDockingOutcomes, hstep]
          exact hrun
        · have harith : c + 1 + rest.length = c + (it :: rest).length := by
            simp only [List.length_cons]
            omega
          rw [← harith]
          by_cases hfin : c + 1 + rest.length = n
          · rw [if_pos hfin] at hres
            rw [if_pos hfin]
            exact ⟨hres.1, by rw [hres.2, hco']⟩
          · rw [if_neg hfin] at hres
            rw [if_neg hfin]
            exact ⟨hres.1, by rw [hres.2, hco']⟩

theorem runBatches_pre (scenarioKeys : List String) (k : String)
    (events : List SummaryItem) :
    events.all (isOutcomeBatchFor scenarioKeys k) = true →
    ∀ (st : AggState) (c : Nat),
      alookup st.collection_completions k = preEntry c →
      ScenariosPresent scenarioKeys st →
      ∃ st', runSummaryEvents st events = some st' ∧
        alookup st'.collection_completions k = preEntry (c + totalOutcomes events) ∧
        st'.completed_collections = st.completed_collections ∧
        ScenariosPresent scenarioKeys st' := by
  induction events with
  | nil =>
      intro _ st c hl hp
      exact ⟨st, rfl, by simpa [totalOutcomes] using hl, rfl, hp⟩
  | cons ev rest ih =>
      intro hall st c hl hp
      simp only [List.all_cons, Bool.and_eq_true] at hall
      obtain ⟨items, ty, hevEq, -, -⟩ := isOutcomeBatchFor_elim hall.1
      subst hevEq
      have hitems : items.all (fun it => it.base_collection_key == k
          && isValidOutcome scenarioKeys it) = true := by
        have h0 := hall.1
        simp only [isOutcomeBatchFor, Bool.and_eq_true] at h0
        exact h0.2
      obtain ⟨stm, hrun1, hl1, hco1, hp1⟩ :=
        handleDockingOutcomes_pre scenarioKeys k items hitems
          { st with dockings_processed := st.dockings_processed + 1 } c
          (by simpa using hl) (by intro s hs; simpa using hp s hs)
      obtain ⟨st', hrun2, hl2, hco2, hp2⟩ := ih hall.2 stm (c + items.length) hl1 hp1
      refine ⟨st', ?_, ?_, ?_, hp2⟩
      · simp only [runSummaryEvents, processSummaryItem, hrun1]
        exact hrun2
      · rw [hl2]
        have : c + items.length + totalOutcomes rest
            = c + totalOutcomes (SummaryItem.docking_complete items ty :: rest) := by
          simp only [totalOutcomes, List.map_cons, List.sum_cons, eventSize]
          omega
        rw [this]
      · rw [hco2, hco1]

theorem runBatches_post (scenarioKeys : List String) (k : String)
    (events : List SummaryItem) :
    events.all (isOutcomeBatchFor scenarioKeys k) = true →
    ∀ (st : AggState) (c n : Nat) (d : String),
      alookup st.collection_completions k = some ⟨(n : Int), (c : Int), d⟩ →
      c < n → c + totalOutcomes events = n →
      ScenariosPresent scenarioKeys st →
      ∃ st', runSummaryEvents st events = some st' ∧
        st'.completed_collections = st.completed_collections ++ [k] := by
  induction events with
  | nil =>
      intro _ st c n d _ hlt htot _
      simp only [totalOutcomes, List.map_nil, List.sum_nil] at htot
      omega
  | cons ev rest ih =>
      intro hall st c n d hl hlt htot hp
      simp only [List.all_cons, Bool.and_eq_true] at hall
      obtain ⟨items, ty, hevEq, -, -⟩ := isOutcomeBatchFor_elim hall.1
      subst hevEq
      have hitems : items.all (fun it => it.base_collection_key == k
          && isValidOutcome scenarioKeys it) = true := by
        have h0 := hall.1
        simp only [isOutcomeBatchFor, Bool.and_eq_true] at h0
        exact h0.2
      have htotcons : items.length + totalOutcomes rest = totalOutcomes
          (SummaryItem.docking_complete items ty :: rest) := by
        simp only [totalOutcomes, List.map_cons, List.sum_cons, eventSize]
      obtain ⟨stm, hrun1, hres, hp1⟩ :=
        handleDockingOutcomes_post scenarioKeys k items hitems
          { st with dockings_processed := st.dockings_processed + 1 } c n d
          (by simpa using hl) hlt (by omega)
          (by intro s hs; simpa using hp s hs)
      by_cases hc1 : c + items.length = n
      · rw [if_pos hc1] at hres
        have hrestnil : rest = [] := totalOutcomes_zero_batches hall.2 (by omega)
        subst hrestnil
        refine ⟨stm, ?_, ?_⟩
        · simp only [runSummaryEvents, processSummaryItem, hrun1]
        · simpa using hres.2
      · rw [if_neg hc1] at hres
        obtain ⟨st', hrun2, hco2⟩ := ih hall.2 stm (c + items.length) n d hres.1
          (by omega) (by omega) hp1
        refine ⟨st', ?_, ?_⟩
        · simp only [runSummaryEvents, processSummaryItem, hrun1]
          exact hrun2
        · rw [hco2, hres.2]

theorem handleDelete_preEntry (st : AggState) (k : String) (n c : Nat) (d : String)
    (hl : alookup st.collection_completions k = preEntry c) :
    if c = n then
        alookup (handleDelete st k (n : Int) d).collection_completions k = none ∧
        (handleDelete st k (n : Int) d).completed_collections
          = st.completed_collections ++ [k]
    else
        alookup (handleDelete st k (n : Int) d).collection_completions k
          = some ⟨(n : Int), (c : Int), d⟩ ∧
        (handleDelete st k (n : Int) d).completed_collections
          = st.completed_collections := by
  have h1 := handleDelete_lookup_self st k (n : Int) d
  have h2 := handleDelete_completed st k (n : Int) d
  rw [hl] at h1 h2
  cases c with
  | zero =>
      simp only [preEntry, if_pos rfl, deleteStep] at h1 h2
      by_cases hc : (0 : Nat) = n
      · have hci : (0 : Int) = (n : Int) := by omega
        rw [if_pos hc]
        rw [if_pos hci] at h1 h2
        exact ⟨h1, by simpa using h2⟩
      · have hci : ¬ ((0 : Int) = (n : Int)) := by omega
        rw [if_neg hc]
        rw [if_neg hci] at h1 h2
        exact ⟨by simpa using h1, by simpa using h2⟩
  | succ m =>
      simp only [preEntry, if_neg (Nat.succ_ne_zero m), deleteStep] at h1 h2
      by_cases hc : m + 1 = n
      · have hci : (⟨-1, ((m + 1 : Nat) : Int), ""⟩ : CompletionEntry).current_completions
            = (n : Int) := by
          show ((m + 1 : Nat) : Int) = (n : Int)
          omega
        rw [if_pos hc]
        rw [if_pos hci] at h1 h2
        exact ⟨h1, by simpa using h2⟩
      · have hci : ¬ ((⟨-1, ((m + 1 : Nat) : Int), ""⟩ : CompletionEntry).current_completions
            = (n : Int)) := by
          show ¬ (((m + 1 : Nat) : Int) = (n : Int))
          omega
        rw [if_neg hc]
        rw [if_neg hci] at h1 h2
        exact ⟨by simpa using h1, by simpa using h2⟩

/-- C1: for every collection and every interleaving of its one `delete`
marker with its (nonempty, valid) `docking_complete` batches in which the
total number of per-task outcomes delivered for its base collection key
equals the marker's `expected_completions`, the Aggregator processes the
whole stream without raising and the completion transition — moving the
scenario outputs into the final tree, deleting the collection's scratch
directory and removing its map entry, recorded on `completed_collections` —
fires exactly once for that key. -/
theorem c1_completion_fires_exactly_once (scenarioKeys : List String)
    (k d : String) (n : Nat) (l1 l2 : List SummaryItem)
    (h1 : l1.all (isOutcomeBatchFor scenarioKeys k) = true)
    (h2 : l2.all (isOutcomeBatchFor scenarioKeys k) = true)
    (htot : totalOutcomes l1 + totalOutcomes l2 = n) :
    ∃ st, summary_process scenarioKeys
        (l1 ++ SummaryItem.delete k (n : Int) d :: l2) = some st ∧
      st.completed_collections.count k = 1 := by
  obtain ⟨st1, hrunA, hlA, hcoA, hpA⟩ := runBatches_pre scenarioKeys k l1 h1
    (initialAggState scenarioKeys) 0
    (by simp [initialAggState, alookup, preEntry])
    (initial_scenariosPresent scenarioKeys)
  have hcoA0 : st1.completed_collections = [] := by
    rw [hcoA]
    simp [initialAggState]
  have hmark := handleDelete_preEntry st1 k n (totalOutcomes l1) d (by simpa using hlA)
  by_cases hcn : totalOutcomes l1 = n
  · rw [if_pos hcn] at hmark
    have hl2nil : l2 = [] := totalOutcomes_zero_batches h2 (by omega)
    subst hl2nil
    refine ⟨handleDelete st1 k (n : Int) d, ?_, ?_⟩
    · unfold summary_process
      rw [runSummaryEvents_append, hrunA]
      simp only [Option.some_bind, runSummaryEvents, processSummaryItem]
    · rw [hmark.2, hcoA0]
      simp
  · rw [if_neg hcn] at hmark
    have hpM : ScenariosPresent scenarioKeys (handleDelete st1 k (n : Int) d) :=
      scenariosPresent_of_summary_eq (handleDelete_frame st1 k (n : Int) d).2.2.2.1 hpA
    obtain ⟨st2, hrunB, hcoB⟩ := runBatches_post scenarioKeys k l2 h2
      (handleDelete st1 k (n : Int) d) (totalOutcomes l1) n d hmark.1
      (by omega) (by omega) hpM
    refine ⟨st2, ?_, ?_⟩
    · unfold summary_process
      rw [runSummaryEvents_append, hrunA]
      simp only [Option.some_bind, runSummaryEvents, processSummaryItem]
      exact hrunB
    · rw [hcoB, hmark.2, hcoA0]
      simp

theorem c1_completion_fires_exactly_once_witness :
    exEventsNoDelete.all (isOutcomeBatchFor ["s1"] "ABCD_1") = true ∧
    ([] : List SummaryItem).all (isOutcomeBatchFor ["s1"] "ABCD_1") = true ∧
    totalOutcomes exEventsNoDelete + totalOutcomes [] = 2 ∧
    ((summary_process ["s1"] exEvents).getD
        (initialAggState [])).completed_collections.count "ABCD_1" = 1 := by
  refine ⟨by decide, by decide, by decide, ?_⟩
  obtain ⟨st, heq, hcnt⟩ := c1_completion_fires_exactly_once ["s1"] "ABCD_1"
    "/tmp/vfvs/coll" 2 exEventsNoDelete [] (by decide) (by decide) (by decide)
  have heq2 : summary_process ["s1"] exEvents = some st := heq
  rw [heq2]
  simpa using hcnt

/-- C3: in every reachable Aggregator state, if no `delete` marker for a base
collection key has arrived, then any completion-map entry for that key (one
created by a docking outcome) carries the sentinel `expected_completions =
-1` and a `current_completions` of at least 1, so the `current == expected`
check can never succeed for it, and consequently no archive-and-cleanup
action has fired for that key. -/
theorem c3_premarker_entries_never_complete (scenarioKeys : List String)
    (events : List SummaryItem) (k : String) (st : AggState)
    (h : summary_process scenarioKeys events = some st)
    (hnd : events.filter (isDeleteForKey k) = []) :
    (∀ e, alookup st.collection_completions k = some e →
        e.expected_completions = -1 ∧ 1 ≤ e.current_completions) ∧
    st.completed_collections.count k = 0 := by
  obtain ⟨hi, hc⟩ := runSummaryEvents_inv3 k events _ st h hnd
    (by intro e he; simp [initialAggState, alookup] at he)
  exact ⟨hi, by simpa [initialAggState] using hc⟩

theorem c3_premarker_entries_never_complete_witness :
    summary_process ["s1"] exEventsNoDelete
        = some ((summary_process ["s1"] exEventsNoDelete).getD (initialAggState [])) ∧
    exEventsNoDelete.filter (isDeleteForKey "ABCD_1") = [] ∧
    ((summary_process ["s1"] exEventsNoDelete).getD
        (initialAggState [])).completed_collections.count "ABCD_1" = 0 :=
  ⟨by decide, by decide,
   (c3_premarker_entries_never_complete ["s1"] exEventsNoDelete "ABCD_1" _
      (by decide) (by decide)).2⟩

/-- C5: at every point in the Aggregator's processing — i.e. for every event
stream it fully handles, in particular every prefix of a longer stream — the
overview counters satisfy `dockings_status.success + dockings_status.failed ==
total_dockings`.  The claim's side condition that every task of a
`docking_complete` batch carries status "success" or "failed" is subsumed:
a batch with any other status makes `summary_process` raise (`none`), so every
completed run satisfies it. -/
theorem c5_dockings_status_invariant (scenarioKeys : List String)
    (events : List SummaryItem) (st : AggState)
    (h : summary_process scenarioKeys events = some st) :
    st.dockings_success + st.dockings_failed = st.total_dockings :=
  runSummaryEvents_counters_inv events (initialAggState scenarioKeys) st h
    (by simp [initialAggState])

theorem c5_dockings_status_invariant_witness :
    summary_process ["s1"] exEvents
        = some ((summary_process ["s1"] exEvents).getD (initialAggState [])) ∧
    ((summary_process ["s1"] exEvents).getD (initialAggState [])).dockings_success
        + ((summary_process ["s1"] exEvents).getD (initialAggState [])).dockings_failed
      = ((summary_process ["s1"] exEvents).getD (initialAggState [])).total_dockings :=
  ⟨by decide, c5_dockings_status_invariant ["s1"] exEvents _ (by decide)⟩

theorem combineScores_nil (o : Option (List ℚ)) : combineScores o [] = o := by
  cases o with
  | none => rfl
  | some l => simp [combineScores]

theorem combineScores_assoc (o : Option (List ℚ)) (g1 g2 : List ℚ) :
    combineScores (combineScores o g1) g2 = combineScores o (g1 ++ g2) := by
  cases o with
  | some l => simp [combineScores, List.append_assoc]
  | none =>
      cases g1 with
      | nil => simp [combineScores]
      | cons x xs => cases g2 <;> simp [combineScores]

theorem successScoresOfItems_cons (scen lig : String) (it : DockingOutcome)
    (rest : List DockingOutcome) :
    successScoresOfItems scen lig (it :: rest)
      = successScoresOfItems scen lig [it] ++ successScoresOfItems scen lig rest := by
  by_cases hc : it.scenario_key = scen ∧ it.ligand_key = lig ∧ it.status = "success"
  · simp [successScoresOfItems, hc]
  · simp [successScoresOfItems, hc]

theorem recordOutcome_row {st st' : AggState} {it : DockingOutcome}
    (h : recordOutcome st it = some st') (scen lig : String) :
    (rowLookup st' scen lig).map SummaryRow.scores
      = combineScores ((rowLookup st scen lig).map SummaryRow.scores)
          (successScoresOfItems scen lig [it]) := by
  unfold recordOutcome at h
  by_cases hs : it.status = "success"
  · rw [if_pos hs] at h
    cases hl : alookup st.summary_data it.scenario_key with
    | none => rw [hl] at h; cases h
    | some table =>
        rw [hl] at h
        simp only [Option.some.injEq] at h
        subst h
        by_cases hscen : it.scenario_key = scen
        · subst hscen
          by_cases hlig : it.ligand_key = lig
          · subst hlig
            cases hrow : alookup table it.ligand_key with
            | none =>
                simp [rowLookup, alookup_aset_self, hrow, hl,
                  successScoresOfItems, hs, combineScores]
            | some row =>
                simp [rowLookup, alookup_aset_self, hrow, hl,
                  successScoresOfItems, hs, combineScores]
          · cases hrow : alookup table it.ligand_key with
            | none =>
                simp [rowLookup, alookup_aset_self, hrow, hl,
                  alookup_aset_ne _ _ _ _ hlig, successScoresOfItems, hlig,
                  combineScores_nil]
            | some row =>
                simp [rowLookup, alookup_aset_self, hrow, hl,
                  alookup_aset_ne _ _ _ _ hlig, successScoresOfItems, hlig,
                  combineScores_nil]
        · simp [rowLookup, alookup_aset_ne _ _ _ _ hscen,
            successScoresOfItems, hscen, combineScores_nil]
  · rw [if_neg hs] at h
    simp only [Option.some.injEq] at h
    subst h
    simp [rowLookup, successScoresOfItems, hs, combineScores_nil]

theorem handleDockingOutcome_row {st st' : AggState} {it : DockingOutcome}
    (h : handleDockingOutcome st it = some st') (scen lig : String) :
    (rowLookup st' scen lig).map SummaryRow.scores
      = combineScores ((rowLookup st scen lig).map SummaryRow.scores)
          (successScoresOfItems scen lig [it]) := by
  unfold handleDockingOutcome at h
  cases hinc : incrementStatus
      { st with total_dockings := st.total_dockings + 1 } it.status with
  | none =>
      simp only [hinc] at h
      exact absurd h (by simp)
  | some st2 =>
      simp only [hinc] at h
      cases hrec : recordOutcome st2 it with
      | none =>
          simp only [hrec] at h
          exact absurd h (by simp)
      | some st3 =>
          simp only [hrec, Option.some.injEq] at h
          subst h
          have hr3 := recordOutcome_row hrec scen lig
          have hsum2 : st2.summary_data = st.summary_data :=
            (incrementStatus_spec hinc).2.2.2.2.1
          have hsum' : (updateCompletions st3 it.base_collection_key).summary_data
              = st3.summary_data :=
            (updateCompletions_frame st3 it.base_collection_key).2.2.2.1
          unfold rowLookup
          rw [hsum']
          unfold rowLookup at hr3
          rw [hsum2] at hr3
          exact hr3

theorem handleDockingOutcomes_row (scen lig : String) (items : List DockingOutcome) :
    ∀ st st', handleDockingOutcomes st items = some st' →
      (rowLookup st' scen lig).map SummaryRow.scores
        = combineScores ((rowLookup st scen lig).map SummaryRow.scores)
            (successScoresOfItems scen lig items) := by
  induction items with
  | nil =>
      intro st st' h
      simp only [handleDockingOutcomes, Option.some.injEq] at h
      subst h
      simp [successScoresOfItems, combineScores_nil]
  | cons it rest ih =>
      intro st st' h
      simp only [handleDockingOutcomes] at h
      cases hstep : handleDockingOutcome st it with
      | none =>
          simp only [hstep] at h
          exact absurd h (by simp)
      | some stm =>
          simp only [hstep] at h
          rw [ih stm st' h, handleDockingOutcome_row hstep scen lig,
            combineScores_assoc, ← successScoresOfItems_cons]

theorem runSummaryEvents_scores (scen lig : String) (events : List SummaryItem) :
    ∀ st st', runSummaryEvents st events = some st' →
      (rowLookup st' scen lig).map SummaryRow.scores
        = combineScores ((rowLookup st scen lig).map SummaryRow.scores)
            (successScores scen lig events) := by
  induction events with
  | nil =>
      intro st st' h
      simp only [runSummaryEvents, Option.some.injEq] at h
      subst h
      simp [successScores, combineScores_nil]
  | cons ev rest ih =>
      intro st st' h
      simp only [runSummaryEvents] at h
      cases hstep : processSummaryItem st ev with
      | none =>
          simp only [hstep] at h
          exact absurd h (by simp)
      | some stm =>
          simp only [hstep] at h
          have hrest := ih stm st' h
          cases ev with
          | delete k n d =>
              simp only [processSummaryItem, Option.some.injEq] at hstep
              have hsum : stm.summary_data = st.summary_data := by
                rw [← hstep]
                exact (handleDelete_frame st k n d).2.2.2.1
              rw [hrest]
              unfold rowLookup
              rw [hsum]
              simp [successScores]
          | download_failed k r dk =>
              simp only [processSummaryItem, Option.some.injEq] at hstep
              have hsum : stm.summary_data = st.summary_data := by
                rw [← hstep]
              rw [hrest]
              unfold rowLookup
              rw [hsum]
              simp [successScores]
          | skip log =>
              simp only [processSummaryItem, Option.some.injEq] at hstep
              have hsum : stm.summary_data = st.summary_data := by
                rw [← hstep]
              rw [hrest]
              unfold rowLookup
              rw [hsum]
              simp [successScores]
          | docking_complete items ty =>
              simp only [processSummaryItem] at hstep
              have hbatch := handleDockingOutcomes_row scen lig items _ stm hstep
              rw [hrest, hbatch, combineScores_assoc]
              simp [successScores, rowLookup]

theorem alookup_map_const {β : Type} (keys : List String) (b : β) (s : String)
    (t : β) (h : alookup (keys.map (fun kk => (kk, b))) s = some t) : t = b := by
  induction keys with
  | nil => cases h
  | cons kk rest ih =>
      simp only [List.map_cons, alookup] at h
      by_cases hk : kk = s
      · rw [if_pos hk] at h
        cases h
        rfl
      · rw [if_neg hk] at h
        exact ih h

theorem foldl_min_mem : ∀ (xs : List ℚ) (x : ℚ), xs.foldl min x ∈ x :: xs := by
  intro xs
  induction xs with
  | nil => intro x; simp
  | cons y ys ih =>
      intro x
      simp only [List.foldl_cons]
      rcases List.mem_cons.mp (ih (min x y)) with h0 | h0
      · rcases min_choice x y with hm | hm
        · rw [h0, hm]
          simp
        · rw [h0, hm]
          simp
      · simp [List.mem_cons, h0]

theorem foldl_min_le : ∀ (xs : List ℚ) (x : ℚ), ∀ y ∈ x :: xs, xs.foldl min x ≤ y := by
  intro xs
  induction xs with
  | nil =>
      intro x y hy
      simp only [List.mem_singleton] at hy
      subst hy
      simp
  | cons z zs ih =>
      intro x y hy
      simp only [List.foldl_cons]
      rcases List.mem_cons.mp hy with h0 | h0
      · rw [h0]
        exact le_trans (ih (min x z) _ (List.mem_cons_self _ _)) (min_le_left _ _)
      · rcases List.mem_cons.mp h0 with h1 | h1
        · rw [h1]
          exact le_trans (ih (min x z) _ (List.mem_cons_self _ _)) (min_le_right _ _)
        · exact ih (min x z) y (List.mem_cons_of_mem _ h1)

/-- C10: every summary row present at report time has accumulated exactly the
scores of the successful docking outcomes of its (scenario, ligand), in
delivery order; the list is nonempty, and the reduction `generate_summary_file`
applies to it satisfies `score_min == min(scores)` (an element of the list
that bounds it from below) and `score_average == mean(scores)` (the sum
divided by the length). -/
theorem c10_summary_row_reduction (scenarioKeys : List String)
    (events : List SummaryItem) (st : AggState) (scen lig : String)
    (table : List (String × SummaryRow)) (row : SummaryRow)
    (h : summary_process scenarioKeys events = some st)
    (ht : alookup st.summary_data scen = some table)
    (hr : alookup table lig = some row) :
    row.scores = successScores scen lig events ∧
    row.scores ≠ [] ∧
    ∃ m, pymin row.scores = some m ∧ m ∈ row.scores ∧
      (∀ x ∈ row.scores, m ≤ x) ∧
      pymean row.scores = some (row.scores.sum / (row.scores.length : ℚ)) := by
  have hrun := runSummaryEvents_scores scen lig events _ st h
  have hinit : rowLookup (initialAggState scenarioKeys) scen lig = none := by
    unfold rowLookup
    cases hsc : alookup (initialAggState scenarioKeys).summary_data scen with
    | none => rfl
    | some t =>
        have ht0 : t = [] := by
          apply alookup_map_const scenarioKeys ([] : List (String × SummaryRow)) scen t
          simpa [initialAggState] using hsc
        subst ht0
        simp [alookup]
  rw [hinit] at hrun
  have hlhs : (rowLookup st scen lig).map SummaryRow.scores = some row.scores := by
    unfold rowLookup
    rw [ht]
    simp [hr]
  rw [hlhs] at hrun
  have hmap : (Option.map SummaryRow.scores (none : Option SummaryRow)) = none := rfl
  rw [hmap] at hrun
  have hscores : row.scores = successScores scen lig events ∧ row.scores ≠ [] := by
    cases hss : successScores scen lig events with
    | nil =>
        rw [hss] at hrun
        exact absurd hrun (by simp [combineScores])
    | cons x xs =>
        rw [hss] at hrun
        rw [show combineScores none (x :: xs) = some (x :: xs) from rfl] at hrun
        simp only [Option.some.injEq] at hrun
        exact ⟨hrun, by simp [hrun]⟩
  refine ⟨hscores.1, hscores.2, ?_⟩
  cases hcs : row.scores with
  | nil => exact absurd hcs hscores.2
  | cons x xs =>
      refine ⟨xs.foldl min x, rfl, ?_, ?_, ?_⟩
      · exact foldl_min_mem xs x
      · exact foldl_min_le xs x
      · simp [pymean]

theorem c10_summary_row_reduction_witness :
    summary_process ["s1"] exEvents = some exFinalState ∧
    alookup exFinalState.summary_data "s1" = some exFinalTable ∧
    alookup exFinalTable "L1" = some exFinalRow ∧
    exFinalRow.scores = successScores "s1" "L1" exEvents :=
  ⟨by decide, by decide, by decide,
   (c10_summary_row_reduction ["s1"] exEvents exFinalState "s1" "L1"
      exFinalTable exFinalRow (by decide) (by decide) (by decide)).1⟩

theorem cpl_foldl_shift :
    ∀ (l : List ScenarioConf) (a : Nat),
      l.foldl (fun acc s => acc + s.replicas) a
        = a + l.foldl (fun acc s => acc + s.replicas) 0 := by
  intro l
  induction l with
  | nil => intro a; simp
  | cons s rest ih =>
      intro a
      simp only [List.foldl_cons]
      rw [ih (a + s.replicas), ih (0 + s.replicas)]
      omega

theorem completions_per_ligand_cons (s : ScenarioConf) (rest : List ScenarioConf) :
    completions_per_ligand (s :: rest) = s.replicas + completions_per_ligand rest := by
  unfold completions_per_ligand
  simp only [List.foldl_cons]
  rw [cpl_foldl_shift rest (0 + s.replicas)]
  omega

theorem submit_ligand_length (ds : List ScenarioConf) (nm ck bk : String) :
    (submit_ligand_for_docking ds nm ck bk).length = completions_per_ligand ds := by
  induction ds with
  | nil => rfl
  | cons s rest ih =>
      unfold submit_ligand_for_docking at ih ⊢
      simp only [List.map_cons, List.flatten_cons, List.length_append,
        List.length_map, List.length_range]
      rw [ih, completions_per_ligand_cons]

theorem submit_ligand_base (ds : List ScenarioConf) (nm ck bk : String) :
    ∀ t ∈ submit_ligand_for_docking ds nm ck bk, t.base_collection_key = bk := by
  intro t ht
  unfold submit_ligand_for_docking at ht
  simp only [List.mem_flatten, List.mem_map] at ht
  obtain ⟨l, ⟨s, hs, hl⟩, htl⟩ := ht
  subst hl
  obtain ⟨r, hr, hteq⟩ := List.mem_map.mp htl
  subst hteq
  rfl

theorem collection_process_ligands_spec (ds : List ScenarioConf)
    (sv : String → Option String) (K : String) :
    ∀ ligs : List (String × LigandRecord),
      (collection_process_ligands ds sv ligs).2.2
          = (ligs.filter (fun p => (sv p.1).isNone)).length * completions_per_ligand ds ∧
      (collection_process_ligands ds sv ligs).1.length
          = (collection_process_ligands ds sv ligs).2.2 ∧
      ((collection_process_ligands ds sv ligs).2.1.filter isDeleteMarker) = [] ∧
      (ligs.all (fun p => p.2.base_collection_key == K) = true →
        (collection_process_ligands ds sv ligs).1.all
          (fun t => t.base_collection_key == K) = true) := by
  intro ligs
  induction ligs with
  | nil => exact ⟨by simp [collection_process_ligands], rfl, rfl, fun _ => rfl⟩
  | cons p rest ih =>
      obtain ⟨name, lig⟩ := p
      obtain ⟨ih1, ih2, ih3, ih4⟩ := ih
      cases hsv : sv name with
      | none =>
          refine ⟨?_, ?_, ?_, ?_⟩
          · simp only [collection_process_ligands, hsv, List.filter_cons]
            rw [if_pos (by simp [hsv])]
            simp only [List.length_cons]
            rw [ih1]
            ring
          · simp only [collection_process_ligands, hsv, List.length_append,
              submit_ligand_length]
            rw [ih2]
          · simpa only [collection_process_ligands, hsv] using ih3
          · intro hall
            simp only [List.all_cons, Bool.and_eq_true, beq_iff_eq] at hall
            simp only [collection_process_ligands, hsv, List.all_append]
            rw [Bool.and_eq_true]
            constructor
            · rw [List.all_eq_true]
              intro t ht
              rw [beq_iff_eq]
              rw [submit_ligand_base ds name lig.collection_key
                lig.base_collection_key t ht]
              exact hall.1
            · exact ih4 hall.2
      | some reason =>
          refine ⟨?_, ?_, ?_, ?_⟩
          · simp only [collection_process_ligands, hsv, List.filter_cons]
            rw [if_neg (by simp [hsv])]
            exact ih1
          · simpa only [collection_process_ligands, hsv] using ih2
          · simp only [collection_process_ligands, hsv, List.filter_cons]
            rw [if_neg (by simp [isDeleteMarker])]
            exact ih3
          · intro hall
            simp only [List.all_cons, Bool.and_eq_true] at hall
            simpa only [collection_process_ligands, hsv] using ih4 hall.2

/-- C2: for every collection item the Validator/Dispatcher processes (one
whose unpack produced a ligand dict), it emits exactly one `delete` marker,
as the last summary event — after every ligand has been dispatched or
skipped — keyed by the collection item's key (the ligands' base collection
key), and carrying `expected_completions` equal to the number of non-skipped
ligands times the sum of the configured scenarios' replica counts, which also
equals the number of dispatched (ligand, scenario, replica) docking tasks. -/
theorem c2_one_delete_marker_with_expected_count (docking_scenarios : List ScenarioConf)
    (skip_verdict : String → Option String) (item : CollectionItem)
    (ligs : List (String × LigandRecord))
    (hligs : item.ligands = some ligs) :
    ∃ tasks events,
      collection_process docking_scenarios skip_verdict item = some (tasks, events) ∧
      (events.filter isDeleteMarker).length = 1 ∧
      events.getLast? = some (SummaryItem.delete item.collection_key
        (((ligs.filter (fun p => (skip_verdict p.1).isNone)).length
            * completions_per_ligand docking_scenarios : Nat) : Int) item.temp_dir) ∧
      tasks.length = (ligs.filter (fun p => (skip_verdict p.1).isNone)).length
            * completions_per_ligand docking_scenarios ∧
      (ligs.all (fun p => p.2.base_collection_key == item.collection_key) = true →
        tasks.all (fun t => t.base_collection_key == item.collection_key) = true) := by
  obtain ⟨h1, h2, h3, h4⟩ :=
    collection_process_ligands_spec docking_scenarios skip_verdict
      item.collection_key ligs
  refine ⟨(collection_process_ligands docking_scenarios skip_verdict ligs).1,
    (collection_process_ligands docking_scenarios skip_verdict ligs).2.1
      ++ [SummaryItem.delete item.collection_key
          (((collection_process_ligands docking_scenarios skip_verdict ligs).2.2 : Nat) : Int)
          item.temp_dir], ?_, ?_, ?_, ?_, h4⟩
  · unfold collection_process
    rw [hligs]
  · rw [List.filter_append, h3]
    simp [isDeleteMarker]
  · rw [List.getLast?_append]
    simp [h1]
  · rw [h2, h1]

theorem c2_one_delete_marker_with_expected_count_witness :
    exCollectionItem.ligands = some exLigs ∧
    (((collection_process exScenarios exSkipVerdict exCollectionItem).getD
        ([], [])).2.filter isDeleteMarker).length = 1 := by
  refine ⟨rfl, ?_⟩
  obtain ⟨tasks, events, heq, hone, -, -, -⟩ :=
    c2_one_delete_marker_with_expected_count exScenarios exSkipVerdict
      exCollectionItem exLigs rfl
  rw [heq]
  simpa using hone

/-- C4: the claim's propagation policy fails on the code.  On an
archive-open failure `unpack_item` logs the error and returns `None`
(yielding no ligands), but `untar` still forwards the item, and the
Validator's loop `for ligand_key in item['ligands']` then raises `TypeError`
when iterating `None` — the per-item failure does propagate as an exception
across the queue boundary, crashing the Validator worker.  This evaluates
both stages at the failing input. -/
theorem c4_unpack_failure_crashes_validator :
    unpack_item (TarOpenResult.open_failed "not a gzip file") "ABCD_1"
        SelectionMode.full = some none ∧
    collection_process exScenarios exSkipVerdict exCollectionItemBad = none :=
  ⟨rfl, rfl⟩

theorem aset_values {α : Type} (acc : List (String × α)) (k : String) (v : α)
    (P : α → Prop) (hacc : ∀ name lr, alookup acc name = some lr → P lr)
    (hv : P v) :
    ∀ name lr, alookup (aset acc k v) name = some lr → P lr := by
  intro name lr h
  by_cases hk : k = name
  · subst hk
    rw [alookup_aset_self] at h
    cases h
    exact hv
  · rw [alookup_aset_ne _ _ _ _ hk] at h
    exact hacc name lr h

theorem buildLigands_aux (ck : String) :
    ∀ (members : List TarMember) (acc : List (String × LigandRecord)),
      (∀ name lr, alookup acc name = some lr → lr = ⟨ck, ck⟩) →
      ∀ name lr,
        alookup (members.foldl (fun acc m =>
          if m.is_dir then acc
          else if m.ligand_file = ".listing" then acc
          else aset acc (ligandNameOf m.ligand_file) ⟨ck, ck⟩) acc) name = some lr →
        lr = ⟨ck, ck⟩ := by
  intro members
  induction members with
  | nil => intro acc hacc; exact hacc
  | cons m rest ih =>
      intro acc hacc
      simp only [List.foldl_cons]
      by_cases hd : m.is_dir
      · rw [if_pos hd]
        exact ih acc hacc
      · rw [if_neg hd]
        by_cases hlst : m.ligand_file = ".listing"
        · rw [if_pos hlst]
          exact ih acc hacc
        · rw [if_neg hlst]
          exact ih _ (aset_values acc _ _ _ hacc rfl)

theorem buildLigands_values (ck : String) (members : List TarMember) :
    ∀ name lr, alookup (buildLigands ck members) name = some lr → lr = ⟨ck, ck⟩ := by
  unfold buildLigands
  exact buildLigands_aux ck members [] (by intro name lr h; cases h)

theorem prescreen_select_spec (ligands : List (String × LigandRecord)) (cutoff : Int) :
    ∀ (rows : List ListingRow) (acc : List (String × LigandRecord)),
      (rows.map ListingRow.ligand_name).Nodup →
      (∀ r ∈ rows, r.rank_index < cutoff →
        (alookup ligands r.ligand_name).isSome = true) →
      ∃ out, prescreen_select ligands cutoff acc rows = some out ∧
        ∀ name,
          alookup out name
            = (match rows.find? (fun r =>
                  r.ligand_name == name && decide (r.rank_index < cutoff)) with
               | some r => (alookup ligands name).map
                   (fun lr => { lr with collection_key := r.collection_key })
               | none => alookup acc name) := by
  intro rows
  induction rows with
  | nil =>
      intro acc _ _
      exact ⟨acc, rfl, by intro name; simp⟩
  | cons row rest ih =>
      intro acc hnd hpres
      have hnd' : row.ligand_name ∉ rest.map ListingRow.ligand_name ∧
          (rest.map ListingRow.ligand_name).Nodup :=
        List.nodup_cons.mp (by simpa only [List.map_cons] using hnd)
      by_cases hkeep : row.rank_index < cutoff
      · have hsome : (alookup ligands row.ligand_name).isSome = true :=
          hpres row (List.mem_cons_self _ _) hkeep
        cases hlr : alookup ligands row.ligand_name with
        | none => rw [hlr] at hsome; cases hsome
        | some lr =>
            obtain ⟨out, hout, hspec⟩ := ih
              (aset acc row.ligand_name { lr with collection_key := row.collection_key })
              hnd'.2
              (fun r hr hrk => hpres r (List.mem_cons_of_mem _ hr) hrk)
            refine ⟨out, ?_, ?_⟩
            · simp only [prescreen_select, if_neg (by omega : ¬ row.rank_index ≥ cutoff), hlr]
              exact hout
            · intro name
              rw [hspec name]
              by_cases hname : row.ligand_name = name
              · subst hname
                rw [List.find?_cons_of_pos _ (by simp [hkeep])]
                have hfind : rest.find? (fun r =>
                    r.ligand_name == row.ligand_name
                      && decide (r.rank_index < cutoff)) = none := by
                  apply List.find?_eq_none.mpr
                  intro x hx
                  have hxne : x.ligand_name ≠ row.ligand_name := by
                    intro he
                    exact hnd'.1 (he ▸ List.mem_map_of_mem ListingRow.ligand_name hx)
                  simp [hxne]
                rw [hfind]
                simp [alookup_aset_self, hlr]
              · rw [List.find?_cons_of_neg _ (by simp [hname])]
                cases hfind : rest.find? (fun r =>
                    r.ligand_name == name && decide (r.rank_index < cutoff)) with
                | none => simp [alookup_aset_ne _ _ _ _ hname]
                | some r2 => rfl
      · obtain ⟨out, hout, hspec⟩ := ih acc hnd'.2
          (fun r hr hrk => hpres r (List.mem_cons_of_mem _ hr) hrk)
        refine ⟨out, ?_, ?_⟩
        · simp only [prescreen_select, if_pos (by omega : row.rank_index ≥ cutoff)]
          exact hout
        · intro name
          rw [hspec name]
          rw [List.find?_cons_of_neg _ (by simp [hkeep])]

theorem find?_first_of_nodup (cutoff : Int) (r : ListingRow) :
    ∀ rows : List ListingRow,
      (rows.map ListingRow.ligand_name).Nodup → r ∈ rows → r.rank_index < cutoff →
      rows.find? (fun x => x.ligand_name == r.ligand_name
          && decide (x.rank_index < cutoff)) = some r := by
  intro rows
  induction rows with
  | nil => intro _ hr; cases hr
  | cons h rest ih =>
      intro hnd hr hk
      have hnd' : h.ligand_name ∉ rest.map ListingRow.ligand_name ∧
          (rest.map ListingRow.ligand_name).Nodup :=
        List.nodup_cons.mp (by simpa only [List.map_cons] using hnd)
      rcases List.mem_cons.mp hr with h0 | h0
      · subst h0
        rw [List.find?_cons_of_pos _ (by simp [hk])]
      · have hne : h.ligand_name ≠ r.ligand_name := by
          intro he
          exact hnd'.1 (he ▸ List.mem_map_of_mem ListingRow.ligand_name h0)
        rw [List.find?_cons_of_neg _ (by simp [hne])]
        exact ih hnd'.2 h0 hk

/-- C6: in prescreen mode, given listing rows with pairwise-distinct ligand
names each of whose kept rows names a ligand of the archive, `unpack_item`
keeps a ligand exactly when some listing row names it with `rank_index`
strictly below the configured per-tranche cutoff; every kept ligand's
reporting `collection_key` is overwritten to its listing row's collection
key while its `base_collection_key` remains the original archive's key;
and ligands not named in any kept listing row are dropped. -/
theorem c6_prescreen_mode (members : List TarMember) (ck : String)
    (rows : List ListingRow) (cutoff : Int)
    (hnd : (rows.map ListingRow.ligand_name).Nodup)
    (hpres : rows.all (fun r => !(decide (r.rank_index < cutoff))
        || (alookup (buildLigands ck members) r.ligand_name).isSome) = true) :
    ∃ out, unpack_item (TarOpenResult.opened members) ck
        (SelectionMode.prescreen rows cutoff) = some (some out) ∧
      (∀ r ∈ rows, r.rank_index < cutoff →
        alookup out r.ligand_name = some ⟨ck, r.collection_key⟩) ∧
      (∀ name, (∀ r ∈ rows, r.ligand_name = name → ¬ r.rank_index < cutoff) →
        alookup out name = none) := by
  have hpres' : ∀ r ∈ rows, r.rank_index < cutoff →
      (alookup (buildLigands ck members) r.ligand_name).isSome = true := by
    intro r hr hrk
    have h0 := List.all_eq_true.mp hpres r hr
    simp only [Bool.or_eq_true, Bool.not_eq_true', decide_eq_false_iff_not] at h0
    cases h0 with
    | inl h1 => exact absurd hrk h1
    | inr h1 => exact h1
  obtain ⟨out, hout, hspec⟩ :=
    prescreen_select_spec (buildLigands ck members) cutoff rows [] hnd hpres'
  refine ⟨out, ?_, ?_, ?_⟩
  · show Option.map some (prescreen_select (buildLigands ck members) cutoff [] rows)
        = some (some out)
    rw [hout]
    rfl
  · intro r hr hrk
    rw [hspec r.ligand_name, find?_first_of_nodup cutoff r rows hnd hr hrk]
    have hsome := hpres' r hr hrk
    cases hlr : alookup (buildLigands ck members) r.ligand_name with
    | none => rw [hlr] at hsome; cases hsome
    | some lr =>
        have hlr0 : lr = ⟨ck, ck⟩ := buildLigands_values ck members _ lr hlr
        subst hlr0
        rfl
  · intro name hnone
    rw [hspec name]
    have hfind : rows.find? (fun x => x.ligand_name == name
        && decide (x.rank_index < cutoff)) = none := by
      apply List.find?_eq_none.mpr
      intro x hx
      by_cases hxn : x.ligand_name = name
      · have hnk := hnone x hx hxn
        simp [hxn, hnk]
      · simp [hxn]
    rw [hfind]
    simp [alookup]

theorem c6_prescreen_mode_witness :
    (exRows.map ListingRow.ligand_name).Nodup ∧
    exRows.all (fun r => !(decide (r.rank_index < 1))
        || (alookup (buildLigands "ABCD_1" exMembers) r.ligand_name).isSome) = true ∧
    alookup (((unpack_item (TarOpenResult.opened exMembers) "ABCD_1"
        (SelectionMode.prescreen exRows 1)).getD none).getD []) "L1"
      = some ⟨"ABCD_1", "EFGH_2"⟩ := by
  refine ⟨by decide, by decide, ?_⟩
  obtain ⟨out, hout, hkeep, -⟩ :=
    c6_prescreen_mode exMembers "ABCD_1" exRows 1 (by decide) (by decide)
  have h1 : ((unpack_item (TarOpenResult.opened exMembers) "ABCD_1"
      (SelectionMode.prescreen exRows 1)).getD none).getD [] = out := by
    rw [hout]
    rfl
  rw [h1]
  exact hkeep ⟨"EFGH_2", "L1", 0⟩ (by simp [exRows]) (by norm_num)

theorem appendAttrColumns_aux (attrs : List (String × String)) :
    ∀ L : List String,
      appendAttrColumns (baseCsvOrdering ++ L.map Column.attr) attrs
        = baseCsvOrdering
          ++ (attrs.foldl (fun acc p => if p.1 ∈ acc then acc else acc ++ [p.1]) L).map
              Column.attr := by
  induction attrs with
  | nil => intro L; rfl
  | cons p rest ih =>
      intro L
      simp only [appendAttrColumns, List.foldl_cons] at ih ⊢
      have hmemiff : (Column.attr p.1 ∈ baseCsvOrdering ++ L.map Column.attr) ↔ p.1 ∈ L := by
        simp [baseCsvOrdering, List.mem_append, List.mem_map]
      by_cases hmem : p.1 ∈ L
      · rw [if_pos (hmemiff.mpr hmem), if_pos hmem]
        exact ih L
      · rw [if_neg (fun hc => hmem (hmemiff.mp hc)), if_neg hmem]
        have hre : (baseCsvOrdering ++ L.map Column.attr) ++ [Column.attr p.1]
            = baseCsvOrdering ++ (L ++ [p.1]).map Column.attr := by
          simp [List.map_append, List.append_assoc]
        rw [hre]
        exact ih (L ++ [p.1])

theorem csvOrdering_attr_fold (rows : List SummaryRow) :
    ∀ L : List String,
      rows.foldl (fun ord row => appendAttrColumns ord row.attrs)
          (baseCsvOrdering ++ L.map Column.attr)
        = baseCsvOrdering
          ++ (rows.foldl (fun acc row =>
                row.attrs.foldl (fun acc p => if p.1 ∈ acc then acc else acc ++ [p.1]) acc)
              L).map Column.attr := by
  induction rows with
  | nil => intro L; rfl
  | cons row rest ih =>
      intro L
      simp only [List.foldl_cons]
      rw [appendAttrColumns_aux row.attrs L]
      exact ih _

/-- C7 (amended): the `csv.gz` column ordering is exactly the base columns
`ligand, collection_key, scenario, score_average, score_min`, then the
`attr_*` columns in first-appearance order, then `score_0..score_{R-1}` for
the maximum replica-score count `R`; no `tranche_*` column is part of the
delimited-text ordering (the per-row loop computes the tranche letters as
row fields but never appends them to `csv_ordering`, so only the columnar
format sees them). -/
theorem c7_csv_ordering (rows : List SummaryRow) :
    csvOrdering rows
      = baseCsvOrdering ++ (attrNamesOrder rows).map Column.attr
          ++ (List.range (maxScoresCount rows)).map Column.score ∧
    ∀ i, Column.tranche i ∉ csvOrdering rows := by
  have hmain : rows.foldl (fun ord row => appendAttrColumns ord row.attrs) baseCsvOrdering
      = baseCsvOrdering ++ (attrNamesOrder rows).map Column.attr := by
    have h0 := csvOrdering_attr_fold rows []
    simpa [attrNamesOrder] using h0
  constructor
  · unfold csvOrdering
    rw [hmain, List.append_assoc]
  · intro i hmem
    unfold csvOrdering at hmem
    rw [hmain] at hmem
    simp [baseCsvOrdering, List.mem_append, List.mem_map] at hmem

/-- C7 counterexample: at a concrete summary table with one row (collection
key `AB_1`, one attribute, one score) the emitted `csv.gz` ordering is not
the claimed `ligand, collection_key, scenario, score_average, score_min,
attr_*, tranche_0.., score_0..` ordering: the tranche columns are absent. -/
theorem c7_csv_ordering_counterexample :
    ¬ (csvOrdering [exRowCsv] = specCsvOrdering [exRowCsv] 2) := by
  decide

/-- C8: the claim fails on the code and the claim is the intent: in
`generate_summary_file` the empty-row-set check `if(len(...) == 0): break`
exits the whole scenario loop instead of skipping one scenario, so with
scenarios ordered `[s1 (no rows), s2 (one row)]` and one processed docking
batch the sentinel branch emits the overview report and both per-scenario
output archives but no summary table at all — `s2`'s non-empty table is
silently dropped.  The overview report is still always written, also with
zero dockings processed. -/
theorem c8_break_skips_nonempty_scenario :
    summary_sentinel_artifacts ["csv.gz"] ["s1", "s2"]
        [("s1", []), ("s2", [("L1", exRowS2)])] 1
      = [ReportArtifact.overview_report, ReportArtifact.output_archive "s1",
         ReportArtifact.output_archive "s2"] ∧
    ReportArtifact.csv_summary "s2" ∉ summary_sentinel_artifacts ["csv.gz"] ["s1", "s2"]
        [("s1", []), ("s2", [("L1", exRowS2)])] 1 ∧
    summary_sentinel_artifacts ["csv.gz"] ["s1", "s2"]
        [("s1", []), ("s2", [("L1", exRowS2)])] 0
      = [ReportArtifact.overview_report] := by
  refine ⟨?_, ?_, ?_⟩ <;> decide

theorem alookup_entries {α : Type} (P : α → Prop) :
    ∀ m : List (String × α), (∀ q ∈ m, P q.2) → ∀ p v, alookup m p = some v → P v := by
  intro m
  induction m with
  | nil =>
      intro _ p v h
      cases h
  | cons q rest ih =>
      intro hall p v h
      obtain ⟨k, w⟩ := q
      simp only [alookup] at h
      by_cases hk : k = p
      · rw [if_pos hk] at h
        have hp : P w := hall (k, w) (List.mem_cons_self _ _)
        rw [Option.some.injEq] at h
        rw [← h]
        exact hp
      · rw [if_neg hk] at h
        exact ih (fun r hr => hall r (List.mem_cons_of_mem _ hr)) p v h

theorem docking_programs_all_single_with_start :
    ∀ q ∈ DOCKING_PROGRAMS, q.2.has_start = true ∧ q.2.ligands = "single" := by
  decide

theorem docking_process_single_clean (scenario_program : String)
    (hstart : program_runstring_array_raises scenario_program = false) :
    ∀ items : List ExecTask,
      items.all (fun t => t.program == scenario_program) = true →
      ∀ uuid, FsEvent.mkdir_run_dir uuid ∈ (docking_process_single items).1 →
        FsEvent.rmtree_run_dir uuid ∈ (docking_process_single items).1 := by
  intro items
  induction items with
  | nil =>
      intro _ uuid hmem
      exact absurd hmem (by simp [docking_process_single])
  | cons t rest ih =>
      intro hall uuid hmem
      simp only [List.all_cons, Bool.and_eq_true, beq_iff_eq] at hall
      have hraise : program_runstring_array_raises t.program = false := by
        rw [hall.1, hstart]
      have htrace : (docking_process_single (t :: rest)).1
          = FsEvent.mkdir_run_dir t.uuid :: FsEvent.rmtree_run_dir t.uuid
              :: (docking_process_single rest).1 := by
        simp only [docking_process_single, hraise]
        cases hrest : docking_process_single rest with
        | mk evs res => cases res <;> simp
      rw [htrace] at hmem ⊢
      rcases List.mem_cons.mp hmem with h0 | h1
      · simp only [FsEvent.mkdir_run_dir.injEq] at h0
        subst h0
        exact List.mem_cons_of_mem _ (List.mem_cons_self _ _)
      · rcases List.mem_cons.mp h1 with h2 | h3
        · simp at h2
        · exact List.mem_cons_of_mem _
            (List.mem_cons_of_mem _ (ih hall.2 uuid h3))

/-- C9: for every executed docking invocation (single or batch model), the
per-invocation temporary run directory created during setup is deleted after
the invocation and its result parsing finish, on every exit path of
`docking_process_batch`: every run-directory creation in the filesystem
trace has a matching removal in the trace.  The timeout, non-zero-exit,
result-parse-failure and success paths of the single model all reach
`docking_process_clean_common`; an unregistered program raises `KeyError`
at batched-item assembly, before any setup, so no directory exists on that
path; and the shipped `DOCKING_PROGRAMS` table gives every program a start
function (so command generation cannot raise mid-loop) and the single
execution model (so the batch branch, which would abort on a `KeyError`
before its own cleanup, is never taken). -/
theorem c9_run_dir_cleanup (scenario_program batch_uuid : String)
    (items : List ExecTask)
    (hprog : items.all (fun t => t.program == scenario_program) = true) :
    ∀ uuid,
      FsEvent.mkdir_run_dir uuid
          ∈ (docking_process_batch scenario_program batch_uuid items).1 →
      FsEvent.rmtree_run_dir uuid
          ∈ (docking_process_batch scenario_program batch_uuid items).1 := by
  by_cases hlen : items.length = 0
  · have heq : (docking_process_batch scenario_program batch_uuid items).1 = [] := by
      unfold docking_process_batch
      rw [if_pos hlen]
    intro uuid hmem
    rw [heq] at hmem
    simp at hmem
  · cases hdp : alookup DOCKING_PROGRAMS scenario_program with
    | none =>
        have heq : (docking_process_batch scenario_program batch_uuid items).1 = [] := by
          unfold docking_process_batch
          rw [if_neg hlen, hdp]
        intro uuid hmem
        rw [heq] at hmem
        simp at hmem
    | some entry =>
        have hfacts :=
          alookup_entries (fun e => e.has_start = true ∧ e.ligands = "single")
            DOCKING_PROGRAMS docking_programs_all_single_with_start
            scenario_program entry hdp
        have heq : docking_process_batch scenario_program batch_uuid items
            = docking_process_single items := by
          unfold docking_process_batch
          rw [if_neg hlen, hdp]
          simp [hfacts.2]
        have hstart : program_runstring_array_raises scenario_program = false := by
          simp [program_runstring_array_raises, hdp, hfacts.1]
        intro uuid hmem
        rw [heq] at hmem ⊢
        exact docking_process_single_clean scenario_program hstart items hprog uuid hmem

theorem c9_run_dir_cleanup_witness :
    exExecTasks.all (fun t => t.program == "qvina02") = true ∧
    FsEvent.rmtree_run_dir "u1"
      ∈ (docking_process_batch "qvina02" "b7" exExecTasks).1 :=
  ⟨by decide,
   c9_run_dir_cleanup "qvina02" "b7" exExecTasks (by decide) "u1" (by decide)⟩

end VFVS
